import Mathlib

/-!
# Blob store: node values and the HTTP adapter

A shallow embedding of `nodestore/interface.go` (users, nodes and the
option-style node constructor) and of `service/server.go` (the request
handlers), followed by the properties proved about them.

Go strings are modelled as Lean `String`s (sequences of code points). The
byte offsets the embedded code computes are those of ASCII commas, so an
offset in code points and one in bytes cut a string at the same place; the
bytes that one `Read` of a form part puts in a buffer are given with the part;
and a length in bytes is `strings.byteLen`.
-/

set_option autoImplicit false

/-! ## The Go standard library functions the code calls -/

namespace unicode

/-- Go `unicode.IsSpace`: the Latin-1 spaces `\t \n \v \f \r`, space, U+0085
and U+00A0, and the other code points with the White_Space property. -/
def IsSpace (c : Char) : Bool :=
  c = '\t' || c = '\n' || c = '\x0b' || c = '\x0c' || c = '\r' || c = ' ' ||
  c = '\u0085' || c = '\u00a0' || c = '\u1680' ||
  (0x2000 ≤ c.toNat && c.toNat ≤ 0x200a) ||
  c = '\u2028' || c = '\u2029' || c = '\u202f' || c = '\u205f' || c = '\u3000'

/-- Go `unicode.ToLower` as far as it can produce an ASCII letter: `A`..`Z`,
U+0130 (dotted capital I) and U+212A (the Kelvin sign). Every other code
point that has a lower-case form is mapped by Go to a non-ASCII code point;
the embedding leaves it in place, which is again a non-ASCII code point. -/
def ToLower (c : Char) : Char :=
  if 'A'.toNat ≤ c.toNat ∧ c.toNat ≤ 'Z'.toNat then Char.ofNat (c.toNat + 32)
  else if c = '\u0130' then 'i'
  else if c = '\u212a' then 'k'
  else c

end unicode

namespace strings

/-- Leading white space removed. -/
def trimLeft (l : List Char) : List Char := l.dropWhile unicode.IsSpace

/-- Trailing white space removed. -/
def trimRight (l : List Char) : List Char :=
  (l.reverse.dropWhile unicode.IsSpace).reverse

/-- Go `strings.TrimSpace`: all leading and trailing white space removed. -/
def TrimSpace (s : String) : String := ⟨trimRight (trimLeft s.data)⟩

/-- Go `strings.Index(s, ",")` for a one-character separator: the offset of
its first occurrence, or `-1`. -/
def indexFrom (sep : Char) : List Char → Nat → Int
  | [], _ => -1
  | c :: cs, i => if c = sep then (i : Int) else indexFrom sep cs (i + 1)

/-- Go `strings.Index` with a one-character separator. -/
def Index (s : String) (sep : Char) : Int := indexFrom sep s.data 0

/-- Go slice expression `s[:i]` for `0 ≤ i ≤ len(s)`. -/
def sliceTo (s : String) (i : Int) : String := ⟨s.data.take i.toNat⟩

/-- The pieces of a character list between the occurrences of `sep`. -/
def splitList (sep : Char) : List Char → List (List Char)
  | [] => [[]]
  | c :: cs =>
    if c = sep then [] :: splitList sep cs
    else
      match splitList sep cs with
      | [] => [[c]]
      | piece :: rest => (c :: piece) :: rest

/-- Go `strings.Split(s, ",")` for a one-character separator: always at least
one piece, `n + 1` pieces for `n` separators. -/
def Split (s : String) (sep : Char) : List String :=
  (splitList sep s.data).map String.mk

/-- Splitting at runs of white space; `cur` is the current field in reverse. -/
def fieldsAux : List Char → List Char → List String
  | [], cur => if cur = [] then [] else [⟨cur.reverse⟩]
  | c :: cs, cur =>
    if unicode.IsSpace c then
      (if cur = [] then fieldsAux cs [] else ⟨cur.reverse⟩ :: fieldsAux cs [])
    else fieldsAux cs (c :: cur)

/-- Go `strings.Fields`: the maximal runs of non-space characters. -/
def Fields (s : String) : List String := fieldsAux s.data []

/-- Go `strings.ToLower`. -/
def ToLower (s : String) : String := ⟨s.data.map unicode.ToLower⟩

/-- Go `utf8.RuneLen`: the number of bytes of a code point in UTF-8. -/
def runeLen (c : Char) : Nat :=
  if c.toNat < 0x80 then 1
  else if c.toNat < 0x800 then 2
  else if c.toNat < 0x10000 then 3
  else 4

/-- Go `len(s)`: the number of bytes of a string. -/
def byteLen (s : String) : Nat := (s.data.map runeLen).sum

end strings

/-! ## Values shared by the packages -/

/-- A `uuid.UUID`: sixteen bytes, held as the number they spell. -/
structure UUID where
  val : Nat
  deriving DecidableEq, Repr

/-- A `time.Time`, held as nanoseconds since the Unix epoch. -/
structure Time where
  unixNano : Int
  deriving DecidableEq, Repr

/-! ## nodestore/interface.go -/

namespace nodestore

/-- User is a user that may own or read Nodes. -/
structure User where
  id : UUID
  accountName : String
  deriving DecidableEq, Repr

/-- NewUser creates a new user. -/
def NewUser (id : UUID) (accountName : String) : Except String User :=
  let accountName := strings.TrimSpace accountName
  if accountName = "" then
    .error "accountName cannot be empty or whitespace only"
  else
    .ok ⟨id, accountName⟩

/-- GetID returns the user system ID. -/
def User.GetID (u : User) : UUID := u.id

/-- GetAccountName returns the user name in external systems. -/
def User.GetAccountName (u : User) : String := u.accountName

/-- Node is a collection of data about a file, including ACLs. -/
structure Node where
  id : UUID
  owner : User
  readers : List User
  filename : String
  format : String
  size : Int
  md5 : String
  stored : Time
  «public» : Bool
  deriving DecidableEq, Repr

/-- Format provides an arbitrary file format. -/
def Format (format : String) (n : Node) : Node :=
  { n with format := strings.TrimSpace format }

/-- FileName provides an arbitrary file name. -/
def FileName (filename : String) (n : Node) : Node :=
  { n with filename := strings.TrimSpace filename }

/-- Reader adds a user to the read ACL of the node. -/
def Reader (user : User) (n : Node) : Node :=
  { n with readers := n.readers ++ [user] }

/-- Public sets the node to publicly readable or not. -/
def Public (pub : Bool) (n : Node) : Node :=
  { n with «public» := pub }

/-- The values an `options ...func(*Node) error` argument can hold: the
closures the four exported option functions return. The fields of `Node` are
unexported, so no closure written outside the package changes a node. -/
inductive NodeOption where
  | format (format : String)
  | fileName (filename : String)
  | reader (user : User)
  | pub (pub : Bool)
  deriving DecidableEq, Repr

/-- Calling an option on a node (its `error` result is always nil and
`NewNode` drops it). -/
def NodeOption.run : NodeOption → Node → Node
  | .format f => Format f
  | .fileName f => FileName f
  | .reader u => Reader u
  | .pub p => Public p

/-- NewNode creates a new node. -/
def NewNode (id : UUID) (owner : User) (size : Int) (md5 : String) (stored : Time)
    (options : List NodeOption) : Except String Node :=
  if size < 1 then
    .error "size must be > 0"
  else
    .ok (options.foldl (fun n option => option.run n)
      { id := id, owner := owner, size := size, md5 := md5, stored := stored,
        readers := [], filename := "", format := "", «public» := false })

/-- GetID returns the node ID. -/
def Node.GetID (n : Node) : UUID := n.id

/-- GetOwner returns the node owner. -/
def Node.GetOwner (n : Node) : User := n.owner

/-- GetSize returns the size of the file associated with the node. -/
def Node.GetSize (n : Node) : Int := n.size

/-- GetMD5 returns the MD5 of the file associated with the node. -/
def Node.GetMD5 (n : Node) : String := n.md5

/-- GetStoredTime returns the time the file was stored. -/
def Node.GetStoredTime (n : Node) : Time := n.stored

/-- GetFileName gets the name of the file associated with the node, if any. -/
def Node.GetFileName (n : Node) : String := n.filename

/-- GetFormat gets the format of the file associated with the node, if any. -/
def Node.GetFormat (n : Node) : String := n.format

/-- GetReaders gets the users that may read the node (a copy of the list). -/
def Node.GetReaders (n : Node) : List User := [] ++ n.readers

/-- GetPublic gets whether the node is publicly readable or not. -/
def Node.GetPublic (n : Node) : Bool := n.«public»

end nodestore

/-! ## JSON documents, as `encoding/json` writes Go maps (keys in sorted order) -/

/-- A JSON document. -/
inductive JSON where
  | null
  | bool (b : Bool)
  | num (n : Int)
  | str (s : String)
  | arr (items : List JSON)
  | obj (fields : List (String × JSON))

namespace JSON

/-- Whether the document is `null`. -/
def isNull : JSON → Bool
  | .null => true
  | _ => false

/-- The value under key `k` of an object; `none` when the document is not an
object or has no such key. -/
def get (k : String) : JSON → Option JSON
  | .obj fields => fields.lookup k
  | _ => none

/-- The keys of an object, in the order written. -/
def keys : JSON → List String
  | .obj fields => fields.map Prod.fst
  | _ => []

/-- Whether the document is an array holding exactly one string. -/
def isOneString : JSON → Bool
  | .arr [.str _] => true
  | _ => false

end JSON

/-! ## Types of other packages that `service/server.go` uses -/

/-- A Go `error` value: its dynamic type and the text `Error()` returns. -/
structure GoError where
  kind : String
  msg : String
  deriving DecidableEq, Repr

namespace errors

/-- Go `errors.New`. -/
def New (text : String) : GoError := ⟨"*errors.errorString", text⟩

end errors

namespace io

/-- Go `io.EOF`. -/
def EOF : GoError := errors.New "EOF"

end io

namespace http

/-- Go `http.ErrNotMultipart`. -/
def ErrNotMultipart : GoError :=
  ⟨"*http.ProtocolError", "request Content-Type isn't multipart/form-data"⟩

/-- Go `http.StatusUnauthorized`. -/
def StatusUnauthorized : Int := 401

/-- Go `http.StatusLengthRequired`. -/
def StatusLengthRequired : Int := 411

/-- Go `http.StatusText`, for the one code the server asks about. -/
def StatusText (code : Int) : String :=
  if code = 405 then "Method Not Allowed" else ""

/-- Go `http.MethodPost`. -/
def MethodPost : String := "POST"

/-- ASCII upper case of a letter. -/
def upper (c : Char) : Char :=
  if 'a'.toNat ≤ c.toNat ∧ c.toNat ≤ 'z'.toNat then Char.ofNat (c.toNat - 32) else c

/-- ASCII lower case of a letter. -/
def lower (c : Char) : Char :=
  if 'A'.toNat ≤ c.toNat ∧ c.toNat ≤ 'Z'.toNat then Char.ofNat (c.toNat + 32) else c

/-- Canonical form of a header key made of letters, digits and hyphens: the
first letter and every letter after a hyphen in upper case, the rest in lower
case. -/
def canonicalAux : Bool → List Char → List Char
  | _, [] => []
  | up, c :: cs => (if up then upper c else lower c) :: canonicalAux (c = '-') cs

/-- Go `textproto.CanonicalMIMEHeaderKey` on the keys the server uses. -/
def CanonicalHeaderKey (key : String) : String := ⟨canonicalAux true key.data⟩

/-- A request header: canonical key and first value of each field present. -/
abbrev Header := List (String × String)

/-- Go `Header.Get`: the first value of the field, `""` when it is absent. -/
def Header.Get (h : Header) (key : String) : String :=
  (h.lookup (CanonicalHeaderKey key)).getD ""

end http

namespace auth

/-- Modelled from the spec: the declaration of `auth.User` is not among the
sources; a user validated by the auth provider, of which the server reads the
user name. -/
structure User where
  userName : String
  deriving DecidableEq, Repr

/-- GetUserName returns the name of the user. -/
def User.GetUserName (u : User) : String := u.userName

end auth

namespace values

/-- Modelled from the spec: `values.FileName` is declared outside the sources;
a validated file name. -/
structure FileName where
  val : String
  deriving DecidableEq, Repr

/-- Modelled from the spec: `values.FileFormat` is declared outside the
sources; a validated file format. -/
structure FileFormat where
  val : String
  deriving DecidableEq, Repr

end values

namespace core

/-- Modelled from the spec: `core.User` is declared outside the sources; the
server reads its `ID` and `AccountName`. -/
structure User where
  ID : UUID
  AccountName : String
  deriving DecidableEq, Repr

/-- Modelled from the spec: `core.BlobNode` is declared outside the sources;
the fields are those `fromNodeToNode` and `fromNodeToACL` read (`MD5` holds
what `node.MD5.GetMD5()` returns). -/
structure BlobNode where
  ID : UUID
  Size : Int
  MD5 : String
  Stored : Time
  Filename : String
  Format : String
  Owner : User
  Readers : List User
  Public : Bool
  deriving DecidableEq, Repr

/-- The operations of `core.BlobStore` the handlers call, each as the result
the store gives to that call. A call that succeeds returns a node. `Get` is
called with `seek` and `length` by `getNode` and without them by
`getAndWriteACL`. -/
structure BlobStore where
  Store : auth.User → String → Int → values.FileName → values.FileFormat →
    Except GoError BlobNode
  CopyNode : auth.User → UUID → Except GoError BlobNode
  DeleteNode : auth.User → UUID → Option GoError
  SetNodePublic : auth.User → UUID → Bool → Except GoError BlobNode
  AddReaders : auth.User → UUID → List String → Except GoError BlobNode
  RemoveReaders : auth.User → UUID → List String → Except GoError BlobNode
  ChangeOwner : auth.User → UUID → String → Except GoError BlobNode
  Get : Option auth.User → UUID → Option (Int × Int) → Except GoError BlobNode
  GetFile : Option auth.User → UUID → Int → Int → Except GoError (String × Int × String)

end core

namespace authcache

/-- The two operations of the auth cache the server calls. -/
structure Cache where
  GetUser : String → Except GoError auth.User
  ValidateUserNames : List String → String → Option GoError

end authcache

/-! ## service/server.go

Logging is left out: no handler result depends on it. A handler is a function
from the request to the response it writes and the calls it makes on the blob
store and the auth cache, in order. -/

namespace service

/-- ServerStaticConf Static configuration items for the Server. -/
structure ServerStaticConf where
  ServerName : String
  ServerVersion : String
  ID : String
  ServerVersionCompat : String
  DeprecationWarning : String
  GitCommit : String

/-- Server the blobstore server (the router apart). -/
structure Server where
  staticconf : ServerStaticConf
  auth : authcache.Cache
  store : core.BlobStore
  ignoreXIPheaders : Bool

/-- What the file takes from outside the sources: third-party and standard
library functions, functions and constants of the repository that are not
among the sources, and the clock. -/
structure Env where
  /-- third-party `uuid.Parse` -/
  uuidParse : String → Except GoError UUID
  /-- third-party `UUID.String` -/
  uuidString : UUID → String
  /-- standard library `Time.Format` with the layout `timeFormat` -/
  timeFormat : Time → String
  /-- declared in `service`, outside the sources: status code and message of an error -/
  translateError : GoError → Int × String
  /-- declared in `service`, outside the sources: message for a bad authorization header -/
  invalidAuthHeader : String
  /-- declared in `values`, outside the sources -/
  NewFileName : String → Except GoError values.FileName
  /-- declared in `values`, outside the sources -/
  NewFileFormat : String → Except GoError values.FileFormat
  /-- reading of `time.Now()` -/
  now : Time

/-- One part of a multipart form. -/
structure Part where
  formName : String
  fileName : String
  header : http.Header
  /-- the body of the part, as the reader handed to `Store` yields it -/
  content : String
  /-- outcome of one `part.Read(buffer)` with a buffer of `len` bytes: the
  string `string(buffer[:n])` of the `n ≤ len` bytes read, or the error when
  it is neither nil nor `io.EOF` -/
  Read : Nat → Except GoError String

/-- A multipart form being read: the parts still to come and the error
`NextPart` reports after them (`io.EOF` at a proper end). -/
structure Form where
  parts : List Part
  endErr : GoError

/-- The parts of an `http.Request` the handlers read, with the values the
middleware puts in its context. -/
structure Request where
  Method : String
  RemoteAddr : String
  Header : http.Header
  /-- `mux.Vars(r)` -/
  vars : List (String × String)
  /-- `r.URL.Query()` -/
  query : List (String × List String)
  ContentLength : Int
  Body : String
  /-- result of `r.MultipartReader()` -/
  multipart : Except GoError Form
  /-- context value `user` -/
  user : Option auth.User
  /-- context value `token` -/
  token : String

/-- Body of a response: a JSON document, or the bytes of a download. -/
inductive Body where
  | json (doc : JSON)
  | raw (data : String)

/-- What a handler writes: status code, the headers it sets, and the body. -/
structure Response where
  code : Int
  header : List (String × String)
  body : Body

/-- The JSON document of a response, `none` for a download. -/
def Response.json (resp : Response) : Option JSON :=
  match resp.body with
  | .json doc => some doc
  | .raw _ => none

/-- A call on the blob store or on the auth cache. -/
inductive Call where
  | Store (user : auth.User) (data : String) (size : Int)
      (filename : values.FileName) (format : values.FileFormat)
  | CopyNode (user : auth.User) (id : UUID)
  | DeleteNode (user : auth.User) (id : UUID)
  | SetNodePublic (user : auth.User) (id : UUID) (pub : Bool)
  | AddReaders (user : auth.User) (id : UUID) (users : List String)
  | RemoveReaders (user : auth.User) (id : UUID) (users : List String)
  | ChangeOwner (user : auth.User) (id : UUID) (newowner : String)
  | Get (user : Option auth.User) (id : UUID) (range : Option (Int × Int))
  | GetFile (user : Option auth.User) (id : UUID) (seek : Int) (length : Int)
  | AuthGetUser (token : String)
  | ValidateUserNames (names : List String) (token : String)
  deriving DecidableEq, Repr

/-- Whether the call is one on the blob store. -/
def Call.isStoreCall : Call → Bool
  | .AuthGetUser _ => false
  | .ValidateUserNames _ _ => false
  | _ => true

/-- Whether the call changes an ACL. -/
def Call.isACLMutation : Call → Bool
  | .SetNodePublic _ _ _ => true
  | .AddReaders _ _ _ => true
  | .RemoveReaders _ _ _ => true
  | .ChangeOwner _ _ _ => true
  | _ => false

/-- What running a handler comes to: the calls made, in order, and the
response written (`none` if the handler panics on a nil pointer before it
writes one). -/
structure Outcome where
  calls : List Call
  resp : Option Response

def formCopyData : String := "copy_data"
def formUpload : String := "upload"
def formFormat : String := "format"

/-- Go `encodeToJSON`: content type, status code and the document. -/
def encodeToJSON (code : Int) (data : JSON) : Response :=
  { code := code, header := [("content-type", "application/json")], body := .json data }

/-- Go `writeErrorWithCode`. -/
def writeErrorWithCode (err : String) (code : Int) : Response :=
  encodeToJSON code (.obj [
    ("data", .null),
    ("error", .arr [.str err]),
    ("status", .num code)])

/-- Go `writeError`. -/
def writeError (env : Env) (err : GoError) : Response :=
  let (code, errstr) := env.translateError err
  writeErrorWithCode errstr code

/-- Go `notFoundHandler`. -/
def notFoundHandler (_r : Request) : Outcome :=
  ⟨[], some (writeErrorWithCode "Not Found" 404)⟩

/-- Go `notAllowedHandler`. -/
def notAllowedHandler (_r : Request) : Outcome :=
  ⟨[], some (writeErrorWithCode "Method Not Allowed" 405)⟩

/-- Go `getIP`. -/
def getIP (r : Request) (ignoreXIPHeaders : Bool) : String :=
  if ignoreXIPHeaders then
    r.RemoteAddr
  else
    let xFFs := r.Header.Get "X-Forwarded-For"
    let i := strings.Index xFFs ','
    let i := if i = -1 then (xFFs.length : Int) else i
    let xFF := strings.TrimSpace (strings.sliceTo xFFs i)
    let xRIP := strings.TrimSpace (r.Header.Get "X-Real-IP")
    let ip := if xFF ≠ "" then xFF else if xRIP ≠ "" then xRIP else ""
    if ip ≠ "" then ip else r.RemoteAddr

/-- Go `getUser`. -/
def getUser (r : Request) : Option auth.User := r.user

/-- Go `getToken`. -/
def getToken (r : Request) : String := r.token

/-- Go `getTokenFromHeader`. -/
def getTokenFromHeader (env : Env) (r : Request) : Except GoError String :=
  let tokenh := r.Header.Get "authorization"
  if strings.TrimSpace tokenh = "" then
    .ok ""
  else
    let tokenparts := strings.Fields tokenh
    if tokenparts.length ≠ 2 then
      .error (errors.New env.invalidAuthHeader)
    else if strings.ToLower (tokenparts.getD 0 "") ≠ "oauth" then
      .error (errors.New env.invalidAuthHeader)
    else
      .ok (tokenparts.getD 1 "")

/-- Go `authLogMiddleWare`, around the handler `next`. -/
def authLogMiddleWare (env : Env) (s : Server) (next : Request → Outcome)
    (r : Request) : Outcome :=
  match getTokenFromHeader env r with
  | .error err => ⟨[], some (writeErrorWithCode err.msg 400)⟩
  | .ok token =>
    if token ≠ "" then
      match s.auth.GetUser token with
      | .error err => ⟨[.AuthGetUser token], some (writeError env err)⟩
      | .ok user =>
        let o := next { r with user := some user, token := token }
        ⟨.AuthGetUser token :: o.calls, o.resp⟩
    else
      next { r with user := none, token := token }

/-- Go `rootHandler`. -/
def rootHandler (env : Env) (s : Server) (_r : Request) : Outcome :=
  ⟨[], some (encodeToJSON 200 (.obj [
    ("deprecationwarning", .str s.staticconf.DeprecationWarning),
    ("gitcommit", .str s.staticconf.GitCommit),
    ("id", .str s.staticconf.ID),
    ("servername", .str s.staticconf.ServerName),
    ("servertime", .num (env.now.unixNano.tdiv 1000000)),
    ("serverversion", .str s.staticconf.ServerVersion),
    ("version", .str s.staticconf.ServerVersionCompat)]))⟩

/-- Go `getUserRequired`: the user, or the response written when there is none. -/
def getUserRequired (r : Request) : Except Response auth.User :=
  match getUser r with
  | none => .error (writeErrorWithCode "No Authorization" http.StatusUnauthorized)
  | some user => .ok user

/-- Go `getQuery`. -/
def getQuery (r : Request) (param : String) : String :=
  match (r.query.lookup param).getD [] with
  | v :: _ => strings.TrimSpace v
  | [] => ""

/-- Go `getFileNameAndFormat`. -/
def getFileNameAndFormat (env : Env) (r : Request) :
    Except GoError (values.FileName × values.FileFormat) :=
  match env.NewFileName (getQuery r "filename") with
  | .error err => .error err
  | .ok filename =>
    match env.NewFileFormat (getQuery r "format") with
    | .error err => .error err
    | .ok format => .ok (filename, format)

/-- Go `timeFormat` layout applied by `formatTime`. -/
def formatTime (env : Env) (t : Time) : String := env.timeFormat t

/-- Go `fromNodeToNode`. -/
def fromNodeToNode (env : Env) (node : core.BlobNode) : JSON :=
  .obj [
    ("attributes", .null),
    ("created_on", .str (formatTime env node.Stored)),
    ("file", .obj [
      ("checksum", .obj [("md5", .str node.MD5)]),
      ("name", .str node.Filename),
      ("size", .num node.Size)]),
    ("format", .str node.Format),
    ("id", .str (env.uuidString node.ID)),
    ("last_modified", .str (formatTime env node.Stored))]

/-- Go `writeNode`. -/
def writeNode (env : Env) (node : core.BlobNode) : Response :=
  encodeToJSON 200 (.obj [
    ("data", fromNodeToNode env node),
    ("error", .null),
    ("status", .num 200)])

/-- Value of a string of decimal digits, `none` if a character is not a digit. -/
def digitsValue : List Char → Nat → Option Nat
  | [], acc => some acc
  | c :: cs, acc =>
    if '0'.toNat ≤ c.toNat ∧ c.toNat ≤ '9'.toNat then
      digitsValue cs (acc * 10 + (c.toNat - '0'.toNat))
    else none

/-- Go `strconv.ParseInt(s, 10, 64)`: an optional sign and at least one decimal
digit, the value within the range of `int64`; an error otherwise. -/
def ParseInt (s : String) : Except GoError Int :=
  let syntaxErr : GoError := ⟨"*strconv.NumError", "invalid syntax"⟩
  let rangeErr : GoError := ⟨"*strconv.NumError", "value out of range"⟩
  let (neg, digits) :=
    match s.data with
    | '+' :: ds => (false, ds)
    | '-' :: ds => (true, ds)
    | ds => (false, ds)
  if digits = [] then .error syntaxErr
  else
    match digitsValue digits 0 with
    | none => .error syntaxErr
    | some un =>
      if ¬ neg ∧ un ≥ 2 ^ 63 then .error rangeErr
      else if neg ∧ un > 2 ^ 63 then .error rangeErr
      else .ok (if neg then -(un : Int) else (un : Int))

/-- Go `getNextFormPart`: the next part and the form after it, or the
response written when there is none. -/
def getNextFormPart (form : Form) : Except Response (Part × Form) :=
  match form.parts with
  | part :: rest => .ok (part, { form with parts := rest })
  | [] =>
    let errstr := if form.endErr = io.EOF then "Expected form part, early EOF"
      else form.endErr.msg
    .error (writeErrorWithCode errstr 400)

/-- Go `getStringFromPart`: one `Read` into a buffer of `len` bytes, and the
string of the bytes read. -/
def getStringFromPart (part : Part) (len : Nat) : Except Response String :=
  match part.Read len with
  | .error err => .error (writeErrorWithCode err.msg 400)
  | .ok s => .ok s

/-- Go `copyNodeViaForm`. -/
def copyNodeViaForm (env : Env) (s : Server) (user : auth.User) (part : Part) : Outcome :=
  match getStringFromPart part 40 with
  | .error resp => ⟨[], some resp⟩
  | .ok uuidstr =>
    match env.uuidParse uuidstr with
    | .error err =>
      ⟨[], some (writeErrorWithCode ("Invalid " ++ formCopyData ++ ": " ++ err.msg) 400)⟩
    | .ok cid =>
      match s.store.CopyNode user cid with
      | .error err => ⟨[.CopyNode user cid], some (writeError env err)⟩
      | .ok node => ⟨[.CopyNode user cid], some (writeNode env node)⟩

/-- The part of `createNodeFromForm` after the optional `format` part: `part`
is the data part and `format` the result of `values.NewFileFormat`, `none`
for the nil pointer it returns with an error. -/
def createNodeFromFormData (env : Env) (s : Server) (user : auth.User) (part : Part)
    (format : Option values.FileFormat) : Outcome :=
  if part.formName = formCopyData then
    copyNodeViaForm env s user part
  else if part.formName = formUpload then
    match ParseInt (part.header.Get "Content-Length") with
    | .error _ =>
      ⟨[], some (writeErrorWithCode
        "Valid Content-Length header >= 0 required for upload form part" 400)⟩
    | .ok cl =>
      if cl < 0 then
        ⟨[], some (writeErrorWithCode
          "Valid Content-Length header >= 0 required for upload form part" 400)⟩
      else
        match env.NewFileName part.fileName with
        | .error err => ⟨[], some (writeError env err)⟩
        | .ok filename =>
          match format with
          | none => ⟨[], none⟩
          | some format =>
            match s.store.Store user part.content cl filename format with
            | .error err =>
              ⟨[.Store user part.content cl filename format], some (writeError env err)⟩
            | .ok node =>
              ⟨[.Store user part.content cl filename format], some (writeNode env node)⟩
  else
    ⟨[], some (writeErrorWithCode ("Unexpected form name: " ++ part.formName) 400)⟩

/-- Go `createNodeFromForm`. -/
def createNodeFromForm (env : Env) (s : Server) (_r : Request) (form : Form)
    (user : auth.User) : Outcome :=
  match getNextFormPart form with
  | .error resp => ⟨[], some resp⟩
  | .ok (part, form) =>
    if part.formName = formFormat then
      match getStringFromPart part 101 with
      | .error resp => ⟨[], some resp⟩
      | .ok formatstr =>
        match env.NewFileFormat formatstr with
        | .error err => ⟨[], some (writeError env err)⟩
        | .ok format =>
          match getNextFormPart form with
          | .error resp => ⟨[], some resp⟩
          | .ok (part, _) => createNodeFromFormData env s user part (some format)
    else
      createNodeFromFormData env s user part (env.NewFileFormat "").toOption

/-- Go `createNodeFromBody`. -/
def createNodeFromBody (env : Env) (s : Server) (r : Request) (user : auth.User) : Outcome :=
  if r.ContentLength < 0 then
    ⟨[], some (writeErrorWithCode "Length Required" http.StatusLengthRequired)⟩
  else
    match getFileNameAndFormat env r with
    | .error err => ⟨[], some (writeError env err)⟩
    | .ok (filename, format) =>
      match s.store.Store user r.Body r.ContentLength filename format with
      | .error err =>
        ⟨[.Store user r.Body r.ContentLength filename format], some (writeError env err)⟩
      | .ok node =>
        ⟨[.Store user r.Body r.ContentLength filename format], some (writeNode env node)⟩

/-- Go `createNode`. -/
def createNode (env : Env) (s : Server) (r : Request) : Outcome :=
  match getUserRequired r with
  | .error resp => ⟨[], some resp⟩
  | .ok user =>
    match r.multipart with
    | .error err =>
      if err = http.ErrNotMultipart then
        createNodeFromBody env s r user
      else
        ⟨[], some (writeErrorWithCode err.msg 400)⟩
    | .ok form =>
      if r.Method ≠ http.MethodPost then
        ⟨[], some (writeErrorWithCode (http.StatusText 405) 405)⟩
      else
        createNodeFromForm env s r form user

/-- Go `getNodeID`: the id, or the response written when the path variable
is not a UUID. -/
def getNodeID (env : Env) (r : Request) : Except Response UUID :=
  let putativeid := (r.vars.lookup "id").getD ""
  match env.uuidParse putativeid with
  | .error _ => .error (writeErrorWithCode "Node not found" 404)
  | .ok id => .ok id

/-- Go `copyNode`. -/
def copyNode (env : Env) (s : Server) (r : Request) : Outcome :=
  match getNodeID env r with
  | .error resp => ⟨[], some resp⟩
  | .ok id =>
    match getUserRequired r with
    | .error resp => ⟨[], some resp⟩
    | .ok user =>
      match s.store.CopyNode user id with
      | .error err => ⟨[.CopyNode user id], some (writeError env err)⟩
      | .ok node => ⟨[.CopyNode user id], some (writeNode env node)⟩

/-- Go `download`. -/
def download (r : Request) : String :=
  if (r.query.lookup "download").isSome then "yes"
  else if (r.query.lookup "download_raw").isSome then "raw"
  else ""

/-- Go `getNode`. -/
def getNode (env : Env) (s : Server) (r : Request) : Outcome :=
  match getNodeID env r with
  | .error resp => ⟨[], some resp⟩
  | .ok id =>
    let seek : Int := -1
    let length : Int := -1
    let user := getUser r
    let download := download r
    if download ≠ "" then
      match s.store.GetFile user id seek length with
      | .error err => ⟨[.GetFile user id seek length], some (writeError env err)⟩
      | .ok (data, size, filename) =>
        let disposition :=
          if download = "yes" then
            let filename := if filename = "" then env.uuidString id else filename
            [("content-disposition", "attachment; filename=" ++ filename)]
          else []
        ⟨[.GetFile user id seek length],
          some { code := 200,
                 header := disposition ++ [("content-length", toString size),
                   ("content-type", "application/octet-stream")],
                 body := .raw data }⟩
    else
      match s.store.Get user id (some (seek, length)) with
      | .error err => ⟨[.Get user id (some (seek, length))], some (writeError env err)⟩
      | .ok node => ⟨[.Get user id (some (seek, length))], some (writeNode env node)⟩

/-- The response `deleteNode` writes after a successful delete. -/
def deleteNodeResponse : Response :=
  encodeToJSON 200 (.obj [
    ("data", .null),
    ("error", .null),
    ("status", .num 200)])

/-- Go `deleteNode`. -/
def deleteNode (env : Env) (s : Server) (r : Request) : Outcome :=
  match getNodeID env r with
  | .error resp => ⟨[], some resp⟩
  | .ok id =>
    match getUserRequired r with
    | .error resp => ⟨[], some resp⟩
    | .ok user =>
      match s.store.DeleteNode user id with
      | some err => ⟨[.DeleteNode user id], some (writeError env err)⟩
      | none => ⟨[.DeleteNode user id], some deleteNodeResponse⟩

/-- Go `aclTypes`: the keys of the map. -/
def aclTypes : List String :=
  ["", "owner", "read", "write", "delete", "public_read", "public_write", "public_delete"]

/-- Go `getACLType`: the ACL type, or the response written when the path
variable is not one. -/
def getACLType (r : Request) : Except Response String :=
  let acltype := (r.vars.lookup "acltype").getD ""
  if acltype ∉ aclTypes then
    .error (writeErrorWithCode "Invalid acl type" 400)
  else
    .ok acltype

/-- Go `getACLParams`. -/
def getACLParams (env : Env) (r : Request) : Except Response (UUID × String) :=
  match getACLType r with
  | .error resp => .error resp
  | .ok aclType =>
    match getNodeID env r with
    | .error resp => .error resp
    | .ok id => .ok (id, aclType)

/-- Go `toUser`. -/
def toUser (env : Env) (user : core.User) (verbose : Bool) : JSON :=
  if verbose then
    .obj [
      ("username", .str user.AccountName),
      ("uuid", .str (env.uuidString user.ID))]
  else
    .str (env.uuidString user.ID)

/-- Go `toUsers`: the loop appends the rendering of each user in turn. -/
def toUsers (env : Env) (users : List core.User) (verbose : Bool) : List JSON :=
  users.foldl (fun ulist u => ulist ++ [toUser env u verbose]) []

/-- Go `fromNodeToACL`. -/
def fromNodeToACL (env : Env) (node : core.BlobNode) (verbose : Bool) : JSON :=
  let o := toUser env node.Owner verbose
  .obj [
    ("delete", .arr [o]),
    ("owner", o),
    ("public", .obj [
      ("delete", .bool false),
      ("read", .bool node.Public),
      ("write", .bool false)]),
    ("read", .arr (toUsers env node.Readers verbose)),
    ("write", .arr [o])]

/-- Go `writeACL`. -/
def writeACL (env : Env) (r : Request) (node : core.BlobNode) : Response :=
  let verbose := getQuery r "verbosity" = "full"
  encodeToJSON 200 (.obj [
    ("data", fromNodeToACL env node verbose),
    ("error", .null),
    ("status", .num 200)])

/-- Go `getAndWriteACL`. -/
def getAndWriteACL (env : Env) (s : Server) (r : Request) (user : Option auth.User)
    (id : UUID) : Outcome :=
  match s.store.Get user id none with
  | .error err => ⟨[.Get user id none], some (writeError env err)⟩
  | .ok node => ⟨[.Get user id none], some (writeACL env r node)⟩

/-- Go `getACL`. -/
def getACL (env : Env) (s : Server) (r : Request) : Outcome :=
  match getACLParams env r with
  | .error resp => ⟨[], some resp⟩
  | .ok (id, _) => getAndWriteACL env s r (getUser r) id

def noUsersError : String :=
  "Action requires list of comma separated usernames in 'users' parameter"

def tooManyUsersError : String := "Too many users. Nodes may have only one owner."

/-- The loop of `getUserList`: the trimmed pieces that are not empty, in order. -/
def userListLoop (uls : List String) : List String :=
  uls.foldl (fun ulst s =>
    let s := strings.TrimSpace s
    if s ≠ "" then ulst ++ [s] else ulst) []

/-- Go `getUserList`: the calls made on the auth cache, and the user list or
the response written when there is none. -/
def getUserList (env : Env) (s : Server) (r : Request) (singleUser : Bool) :
    List Call × Except Response (List String) :=
  let ul := getQuery r "users"
  let uls := strings.Split ul ','
  let ulst := userListLoop uls
  if ulst.length < 1 then
    ([], .error (writeErrorWithCode noUsersError 400))
  else if singleUser ∧ ulst.length > 1 then
    ([], .error (writeErrorWithCode tooManyUsersError 400))
  else
    match s.auth.ValidateUserNames ulst (getToken r) with
    | some err => ([.ValidateUserNames ulst (getToken r)], .error (writeError env err))
    | none => ([.ValidateUserNames ulst (getToken r)], .ok ulst)

/-- Go `setNodeACL`. The variable `node` stays nil exactly when no branch of
the ACL type is taken, since a store call that succeeds returns a node. -/
def setNodeACL (env : Env) (s : Server) (r : Request) (add : Bool) : Outcome :=
  match getACLParams env r with
  | .error resp => ⟨[], some resp⟩
  | .ok (id, acltype) =>
    match getUserRequired r with
    | .error resp => ⟨[], some resp⟩
    | .ok user =>
      if acltype = "public_read" then
        match s.store.SetNodePublic user id add with
        | .error err => ⟨[.SetNodePublic user id add], some (writeError env err)⟩
        | .ok node => ⟨[.SetNodePublic user id add], some (writeACL env r node)⟩
      else if acltype = "read" then
        match getUserList env s r false with
        | (calls, .error resp) => ⟨calls, some resp⟩
        | (calls, .ok users) =>
          if add then
            match s.store.AddReaders user id users with
            | .error err => ⟨calls ++ [.AddReaders user id users], some (writeError env err)⟩
            | .ok node => ⟨calls ++ [.AddReaders user id users], some (writeACL env r node)⟩
          else
            match s.store.RemoveReaders user id users with
            | .error err => ⟨calls ++ [.RemoveReaders user id users], some (writeError env err)⟩
            | .ok node => ⟨calls ++ [.RemoveReaders user id users], some (writeACL env r node)⟩
      else if acltype = "owner" then
        if ¬ add then
          ⟨[], some (writeErrorWithCode "Deleting ownership is not a supported request type." 400)⟩
        else
          match getUserList env s r true with
          | (calls, .error resp) => ⟨calls, some resp⟩
          | (calls, .ok users) =>
            match users with
            | [] => ⟨calls, none⟩
            | newowner :: _ =>
              match s.store.ChangeOwner user id newowner with
              | .error err =>
                ⟨calls ++ [.ChangeOwner user id newowner], some (writeError env err)⟩
              | .ok node =>
                ⟨calls ++ [.ChangeOwner user id newowner], some (writeACL env r node)⟩
      else
        getAndWriteACL env s r (some user) id

/-- Go `addNodeACL`. -/
def addNodeACL (env : Env) (s : Server) (r : Request) : Outcome :=
  setNodeACL env s r true

/-- Go `removeNodeACL`. -/
def removeNodeACL (env : Env) (s : Server) (r : Request) : Outcome :=
  setNodeACL env s r false

end service

/-! ## Vocabulary of the properties, and sample values -/

namespace service

/-- The document has the keys `status`, `error` and `data`. -/
def hasEnvelopeKeys (doc : JSON) : Bool :=
  (doc.get "status").isSome && (doc.get "error").isSome && (doc.get "data").isSome

/-- Exactly one of the values under `error` and `data` is not null. -/
def exactlyOneNonNull (doc : JSON) : Bool :=
  match doc.get "error", doc.get "data" with
  | some e, some d => e.isNull != d.isNull
  | _, _ => false

/-- The value under `error` is null or an array of exactly one string. -/
def errorIsOneString (doc : JSON) : Bool :=
  match doc.get "error" with
  | some e => e.isNull || e.isOneString
  | none => false

/-- The shape `{status, error, data}` with exactly one of `error` (an array of
one string) and `data` not null. -/
def wellShaped (doc : JSON) : Bool :=
  hasEnvelopeKeys doc && exactlyOneNonNull doc && errorIsOneString doc

/-- The response is a JSON document of the shape `wellShaped`. -/
def Response.wellShaped (resp : Response) : Bool :=
  match resp.body with
  | .json doc => service.wellShaped doc
  | .raw _ => false

/-- The response has status `code` and is the error document with the one
error string `msg`. -/
def Response.isError (resp : Response) (code : Int) (msg : String) : Prop :=
  resp.code = code ∧
  resp.json = some (.obj [("data", .null), ("error", .arr [.str msg]), ("status", .num code)])

/-- Equality of two strings ignoring the case of the ASCII letters. -/
def equalIgnoringCase (a b : String) : Bool :=
  a.data.map http.lower == b.data.map http.lower

/-- The text of a string before its first comma, the whole string if it has
no comma. -/
def beforeFirstComma (s : String) : String := ⟨s.data.takeWhile (fun c => c != ',')⟩

/-- Client IP resolution in the words of the specification: the first
comma-separated entry of `X-Forwarded-For`, else `X-Real-IP`, else the peer
address, each header trimmed and passed over when empty; the peer address
when proxy headers are to be ignored. -/
def resolveIP (r : Request) (ignoreXIPHeaders : Bool) : String :=
  if ignoreXIPHeaders then r.RemoteAddr
  else if strings.TrimSpace (beforeFirstComma (r.Header.Get "X-Forwarded-For")) ≠ "" then
    strings.TrimSpace (beforeFirstComma (r.Header.Get "X-Forwarded-For"))
  else if strings.TrimSpace (r.Header.Get "X-Real-IP") ≠ "" then
    strings.TrimSpace (r.Header.Get "X-Real-IP")
  else r.RemoteAddr

/-- The first value of a query parameter as sent, `""` when it is absent. -/
def queryValue (r : Request) (param : String) : String :=
  ((r.query.lookup param).getD []).headD ""

/-- The user list in the words of the specification: the comma-separated
entries of the value, each trimmed, the empty ones dropped, in order. -/
def userEntries (value : String) : List String :=
  ((strings.Split value ',').map strings.TrimSpace).filter (fun s => s ≠ "")

/-- A sample node: owner `alice`, one reader `bob`, not public. -/
def sampleNode : core.BlobNode :=
  { ID := ⟨1⟩, Size := 12, MD5 := "5d838d477ddf355fc15df1db90bee0aa", Stored := ⟨0⟩,
    Filename := "fn", Format := "json", Owner := ⟨⟨10⟩, "alice"⟩,
    Readers := [⟨⟨11⟩, "bob"⟩], Public := false }

/-- A sample environment: one string parses as a UUID. -/
def sampleEnv : Env :=
  { uuidParse := fun s =>
      if s = "00000000-0000-0000-0000-000000000001" then .ok ⟨1⟩
      else .error (errors.New "invalid UUID")
    uuidString := fun u => toString u.val
    timeFormat := fun _ => "1970-01-01T00:00:00.000Z"
    translateError := fun err => (500, err.msg)
    invalidAuthHeader := "Invalid authorization header or content"
    NewFileName := fun s => .ok ⟨s⟩
    NewFileFormat := fun s => .ok ⟨s⟩
    now := ⟨0⟩ }

/-- A sample server whose store holds `sampleNode` and accepts every call. -/
def sampleServer : Server :=
  { staticconf := ⟨"blobstore", "0.1.0", "shock", "0.9.1", "deprecated", "abcdef"⟩
    auth := { GetUser := fun _ => .ok ⟨"alice"⟩, ValidateUserNames := fun _ _ => none }
    store :=
      { Store := fun _ _ _ _ _ => .ok sampleNode
        CopyNode := fun _ _ => .ok sampleNode
        DeleteNode := fun _ _ => none
        SetNodePublic := fun _ _ _ => .ok sampleNode
        AddReaders := fun _ _ _ => .ok sampleNode
        RemoveReaders := fun _ _ _ => .ok sampleNode
        ChangeOwner := fun _ _ _ => .ok sampleNode
        Get := fun _ _ _ => .ok sampleNode
        GetFile := fun _ _ _ _ => .ok ("012345678910", 12, "fn") }
    ignoreXIPheaders := false }

/-- A sample request by `alice` for the node with the sample UUID, ACL type
`acltype` and `users` parameter `users`. -/
def sampleRequest (acltype users : String) : Request :=
  { Method := "PUT", RemoteAddr := "10.0.0.1:4000",
    Header := [("Authorization", "OAuth tok")],
    vars := [("id", "00000000-0000-0000-0000-000000000001"), ("acltype", acltype)],
    query := [("users", [users])],
    ContentLength := 12, Body := "012345678910",
    multipart := .error http.ErrNotMultipart,
    user := some ⟨"alice"⟩, token := "tok" }

/-- The sample request without an authenticated user. -/
def anonymousRequest (acltype : String) : Request :=
  { sampleRequest acltype "" with Header := [], user := none, token := "" }

end service

/-! ## Vocabulary of the properties of later sections -/

namespace nodestore

/-- The argument of the last `FileName` option of an option list, if any. -/
def lastFileName (options : List NodeOption) : Option String :=
  (options.filterMap (fun o =>
    match o with
    | .fileName f => some f
    | _ => none)).getLast?

/-- The argument of the last `Format` option of an option list, if any. -/
def lastFormat (options : List NodeOption) : Option String :=
  (options.filterMap (fun o =>
    match o with
    | .format f => some f
    | _ => none)).getLast?

/-- The string has no white space at its start nor at its end. -/
def isTrimmed (s : String) : Prop :=
  (∀ c, s.data.head? = some c → unicode.IsSpace c = false) ∧
  (∀ c, s.data.getLast? = some c → unicode.IsSpace c = false)

end nodestore

namespace service

/-- The sample request with a node id in the path that is not a UUID. -/
def badIDRequest : Request :=
  { sampleRequest "" "" with vars := [("id", "not-a-uuid")] }

end service

namespace service

/-- Whether the call is a `Store` on the blob store. -/
def Call.isStore : Call → Bool
  | .Store _ _ _ _ _ => true
  | _ => false

/-- What handling the upload part `part` comes to when the format in force is
`format`: `Store` is called exactly when the `Content-Length` of the part
parses as an `N ≥ 0` and the file name of the part is accepted, and then once,
with size `N`; without such a `Content-Length` the answer is status 400, and
with a file name that is not accepted the answer is the error of
`values.NewFileName`, in both cases without any call. -/
def uploadHandled (env : Env) (user : auth.User) (part : Part)
    (format : values.FileFormat) (o : Outcome) : Prop :=
  ((∃ c ∈ o.calls, c.isStore = true) ↔
    ∃ N filename, ParseInt (part.header.Get "Content-Length") = .ok N ∧ 0 ≤ N ∧
      env.NewFileName part.fileName = .ok filename) ∧
  (∀ N filename, ParseInt (part.header.Get "Content-Length") = .ok N → 0 ≤ N →
    env.NewFileName part.fileName = .ok filename →
    o.calls = [.Store user part.content N filename format]) ∧
  ((¬ ∃ N, ParseInt (part.header.Get "Content-Length") = .ok N ∧ 0 ≤ N) →
    o = ⟨[], some (writeErrorWithCode
      "Valid Content-Length header >= 0 required for upload form part" 400)⟩) ∧
  (∀ N err, ParseInt (part.header.Get "Content-Length") = .ok N → 0 ≤ N →
    env.NewFileName part.fileName = .error err →
    o = ⟨[], some (writeError env err)⟩)

/-- A sample upload part with the given `Content-Length` header and file
name. Its body is twelve ASCII characters, so its first `len` bytes are its
first `len` characters. -/
def uploadPart (contentLength filename : String) : Part :=
  { formName := "upload", fileName := filename,
    header := [("Content-Length", contentLength)],
    content := "012345678910",
    Read := fun len => .ok ⟨"012345678910".data.take len⟩ }

/-- A sample format part of 101 bytes, each the ASCII letter `a`, so its first
`len` bytes are its first `len` characters. -/
def longFormatPart : Part :=
  { formName := "format", fileName := "", header := [],
    content := ⟨List.replicate 101 'a'⟩,
    Read := fun len => .ok ⟨(List.replicate 101 'a').take len⟩ }

/-- A sample format part with the body `json`. -/
def jsonFormatPart : Part :=
  { formName := "format", fileName := "", header := [],
    content := "json",
    Read := fun len => .ok ⟨"json".data.take len⟩ }

/-- Modelled from the spec: `values.NewFileFormat` is not among the sources;
the format of a multipart form is a string of at most 100 bytes. The sample
environment with that check. -/
def strictEnv : Env :=
  { sampleEnv with
    NewFileFormat := fun s =>
      if strings.byteLen s > 100 then
        .error ⟨"*values.IllegalInputError", "File format is > 100 bytes"⟩
      else .ok ⟨s⟩ }

/-- A form that ends properly after the given parts. -/
def sampleForm (parts : List Part) : Form := { parts := parts, endErr := io.EOF }

end service

/-! ## MD5 (RFC 1321), as `crypto/md5` computes it, and the file store -/

namespace md5

/-- The shift amount of each of the 64 steps. -/
def shifts : List Nat :=
  [
   7, 12, 17, 22, 7, 12, 17, 22, 7, 12, 17, 22, 7, 12, 17, 22,
   5, 9, 14, 20, 5, 9, 14, 20, 5, 9, 14, 20, 5, 9, 14, 20,
   4, 11, 16, 23, 4, 11, 16, 23, 4, 11, 16, 23, 4, 11, 16, 23,
   6, 10, 15, 21, 6, 10, 15, 21, 6, 10, 15, 21, 6, 10, 15, 21]

/-- The constant of each of the 64 steps: the integer part of
`2^32 * |sin (i + 1)|`. -/
def K : List Nat :=
  [
   0xd76aa478, 0xe8c7b756, 0x242070db, 0xc1bdceee,
   0xf57c0faf, 0x4787c62a, 0xa8304613, 0xfd469501,
   0x698098d8, 0x8b44f7af, 0xffff5bb1, 0x895cd7be,
   0x6b901122, 0xfd987193, 0xa679438e, 0x49b40821,
   0xf61e2562, 0xc040b340, 0x265e5a51, 0xe9b6c7aa,
   0xd62f105d, 0x02441453, 0xd8a1e681, 0xe7d3fbc8,
   0x21e1cde6, 0xc33707d6, 0xf4d50d87, 0x455a14ed,
   0xa9e3e905, 0xfcefa3f8, 0x676f02d9, 0x8d2a4c8a,
   0xfffa3942, 0x8771f681, 0x6d9d6122, 0xfde5380c,
   0xa4beea44, 0x4bdecfa9, 0xf6bb4b60, 0xbebfbc70,
   0x289b7ec6, 0xeaa127fa, 0xd4ef3085, 0x04881d05,
   0xd9d4d039, 0xe6db99e5, 0x1fa27cf8, 0xc4ac5665,
   0xf4292244, 0x432aff97, 0xab9423a7, 0xfc93a039,
   0x655b59c3, 0x8f0ccc92, 0xffeff47d, 0x85845dd1,
   0x6fa87e4f, 0xfe2ce6e0, 0xa3014314, 0x4e0811a1,
   0xf7537e82, 0xbd3af235, 0x2ad7d2bb, 0xeb86d391]

/-- Rotation of a 32-bit word to the left by `n` bits. -/
def rotl (x n : Nat) : Nat := ((x <<< n) ||| (x >>> (32 - n))) % 2 ^ 32

/-- Complement of a 32-bit word. -/
def not32 (x : Nat) : Nat := x ^^^ 0xffffffff

/-- The four 32-bit words of the running state. -/
structure State where
  a : Nat
  b : Nat
  c : Nat
  d : Nat

/-- The initial state. -/
def init : State := ⟨0x67452301, 0xefcdab89, 0x98badcfe, 0x10325476⟩

/-- The little-endian 32-bit words of a byte list. -/
def words : List Nat → List Nat
  | b0 :: b1 :: b2 :: b3 :: rest =>
    (b0 % 256 + (b1 % 256) * 2 ^ 8 + (b2 % 256) * 2 ^ 16 + (b3 % 256) * 2 ^ 24) :: words rest
  | _ => []

/-- Step `i` of the 64 steps on the block with words `M`. -/
def step (M : List Nat) (st : State) (i : Nat) : State :=
  let f :=
    if i < 16 then (st.b &&& st.c) ||| (not32 st.b &&& st.d)
    else if i < 32 then (st.d &&& st.b) ||| (not32 st.d &&& st.c)
    else if i < 48 then st.b ^^^ st.c ^^^ st.d
    else st.c ^^^ (st.b ||| not32 st.d)
  let g :=
    if i < 16 then i
    else if i < 32 then (5 * i + 1) % 16
    else if i < 48 then (3 * i + 5) % 16
    else (7 * i) % 16
  let f := (f + st.a + K.getD i 0 + M.getD g 0) % 2 ^ 32
  ⟨st.d, (st.b + rotl f (shifts.getD i 0)) % 2 ^ 32, st.b, st.c⟩

/-- The state after one 64-byte block. -/
def block (st : State) (bytes : List Nat) : State :=
  let r := (List.range 64).foldl (step (words bytes)) st
  ⟨(st.a + r.a) % 2 ^ 32, (st.b + r.b) % 2 ^ 32, (st.c + r.c) % 2 ^ 32,
    (st.d + r.d) % 2 ^ 32⟩

/-- The state after the first `n` blocks of a byte list. -/
def blocks : Nat → List Nat → State → State
  | 0, _, st => st
  | n + 1, bytes, st => blocks n (bytes.drop 64) (block st (bytes.take 64))

/-- The `n` low bytes of a number, little-endian. -/
def leBytes : Nat → Nat → List Nat
  | 0, _ => []
  | n + 1, x => x % 256 :: leBytes n (x / 256)

/-- The message with its padding: a byte `0x80`, zero bytes up to 56 modulo
64, and the length in bits as 8 little-endian bytes. -/
def pad (msg : List Nat) : List Nat :=
  msg ++ [0x80] ++ List.replicate ((55 + 64 - msg.length % 64) % 64) 0 ++
    leBytes 8 (8 * msg.length)

/-- The 16 bytes of the digest of a message: `md5.Sum`. -/
def Sum (msg : List Nat) : List Nat :=
  let st := blocks ((pad msg).length / 64) (pad msg) init
  leBytes 4 st.a ++ leBytes 4 st.b ++ leBytes 4 st.c ++ leBytes 4 st.d

/-- The lower-case hexadecimal digit of a number below 16. -/
def hexDigit (d : Nat) : Char :=
  if d < 10 then Char.ofNat (48 + d) else Char.ofNat (87 + d)

/-- The two hexadecimal digits of a byte. -/
def hexByte (b : Nat) : List Char := [hexDigit (b / 16 % 16), hexDigit (b % 16)]

/-- Go `hex.EncodeToString`. -/
def hexString : List Nat → List Char
  | [] => []
  | b :: bs => hexByte b ++ hexString bs

/-- The digest of a message in lower-case hexadecimal. -/
def SumHex (msg : List Nat) : String := ⟨hexString (Sum msg)⟩

end md5

namespace filestore

/-- The bytes of a string of ASCII characters. -/
def asciiBytes (s : String) : List Nat := s.data.map Char.toNat

/-- The parameters of `StoreFile`: the id, the declared size, the bytes the
reader yields, and the optional file name and format. -/
structure StoreFileParams where
  id : String
  size : Int
  data : List Nat
  filename : String
  format : String

/-- StoreFileOutput the output of the store operation. -/
structure StoreFileOutput where
  ID : String
  Size : Int
  Stored : Time
  Filename : String
  Format : String
  MD5 : String
  deriving DecidableEq, Repr

/-- The error for a stream whose length is not the declared size. -/
def ContentLengthMismatch : GoError :=
  ⟨"ContentLengthMismatch", "incorrect Content-Length for data"⟩

/-- Modelled from the spec: `StoreFile` of the S3 file store is not among the
sources (only its test is). It streams the bytes, computing their MD5 and
counting them; when the observed length is not the declared size it fails
with `ContentLengthMismatch`, and otherwise it returns the id, the size, the
MD5 in hexadecimal, the time of the call, the file name and the format. -/
def StoreFile (now : Time) (p : StoreFileParams) : Except GoError StoreFileOutput :=
  if (p.data.length : Int) ≠ p.size then
    .error ContentLengthMismatch
  else
    .ok { ID := p.id, Size := p.size, Stored := now, Filename := p.filename,
          Format := p.format, MD5 := md5.SumHex p.data }

/-- The string is made of lower-case hexadecimal digits. -/
def isLowerHex (s : String) : Prop := ∀ c ∈ s.data, c ∈ "0123456789abcdef".data

end filestore

/-! ## Theorems -/
/-! ### White space and trimming -/

namespace strings

theorem trimRight_append_self (l : List Char) :
    ∃ post, l = trimRight l ++ post ∧ ∀ c ∈ post, unicode.IsSpace c = true := by
  refine ⟨(l.reverse.takeWhile unicode.IsSpace).reverse, ?_, ?_⟩
  · have h := List.takeWhile_append_dropWhile unicode.IsSpace l.reverse
    have h2 := congrArg List.reverse h
    rw [List.reverse_append, List.reverse_reverse] at h2
    exact h2.symm
  · intro c hc
    exact List.mem_takeWhile_imp (List.mem_reverse.mp hc)

theorem trimLeft_append_self (l : List Char) :
    ∃ pre, l = pre ++ trimLeft l ∧ ∀ c ∈ pre, unicode.IsSpace c = true :=
  ⟨l.takeWhile unicode.IsSpace, (List.takeWhile_append_dropWhile _ l).symm,
    fun _ hc => List.mem_takeWhile_imp hc⟩

/-- A string is its trimmed form between two runs of white space. -/
theorem trim_decompose (l : List Char) :
    ∃ pre post, l = pre ++ trimRight (trimLeft l) ++ post ∧
      (∀ c ∈ pre, unicode.IsSpace c = true) ∧ (∀ c ∈ post, unicode.IsSpace c = true) := by
  obtain ⟨pre, h1, hpre⟩ := trimLeft_append_self l
  obtain ⟨post, h2, hpost⟩ := trimRight_append_self (trimLeft l)
  refine ⟨pre, post, ?_, hpre, hpost⟩
  rw [List.append_assoc, ← h2, ← h1]

theorem trimLeft_eq_nil_iff (l : List Char) :
    trimLeft l = [] ↔ ∀ c ∈ l, unicode.IsSpace c = true := by
  unfold trimLeft
  exact List.dropWhile_eq_nil_iff

theorem trimRight_eq_nil_iff (l : List Char) :
    trimRight l = [] ↔ ∀ c ∈ l, unicode.IsSpace c = true := by
  unfold trimRight
  rw [List.reverse_eq_nil_iff, List.dropWhile_eq_nil_iff]
  simp

theorem trimLeft_head_not_space (l : List Char) (c : Char)
    (h : (trimLeft l).head? = some c) : unicode.IsSpace c = false := by
  unfold trimLeft at h
  have := List.head?_dropWhile_not unicode.IsSpace l
  rw [h] at this
  simpa using this

theorem trimRight_prefix (l : List Char) : trimRight l <+: l := by
  obtain ⟨post, h, _⟩ := trimRight_append_self l
  exact ⟨post, h.symm⟩

theorem trimRight_getLast_not_space (l : List Char) (c : Char)
    (h : (trimRight l).getLast? = some c) : unicode.IsSpace c = false := by
  have hne : List.rdropWhile unicode.IsSpace l ≠ [] := by
    intro h0
    change trimRight l = [] at h0
    rw [h0] at h
    simp at h
  have := List.rdropWhile_last_not unicode.IsSpace l hne
  change (List.rdropWhile unicode.IsSpace l).getLast? = some c at h
  rw [List.getLast?_eq_getLast _ hne] at h
  simp only [Option.some.injEq] at h
  rw [h] at this
  simpa using this

/-- The trimmed form of a string does not start with white space. -/
theorem trim_head_not_space (l : List Char) (c : Char)
    (h : (trimRight (trimLeft l)).head? = some c) : unicode.IsSpace c = false := by
  apply trimLeft_head_not_space l c
  obtain ⟨post, hp⟩ := trimRight_prefix (trimLeft l)
  rw [← hp]
  cases hh : trimRight (trimLeft l) with
  | nil => rw [hh] at h; simp at h
  | cons a t => rw [hh] at h; simpa using h

theorem trim_eq_nil_iff (l : List Char) :
    trimRight (trimLeft l) = [] ↔ ∀ c ∈ l, unicode.IsSpace c = true := by
  rw [trimRight_eq_nil_iff]
  constructor
  · intro h
    rw [← trimLeft_eq_nil_iff]
    cases hh : trimLeft l with
    | nil => rfl
    | cons a t =>
      have h1 := trimLeft_head_not_space l a (by rw [hh]; rfl)
      have h2 := h a (by rw [hh]; simp)
      rw [h1] at h2
      cases h2
  · intro h
    rw [(trimLeft_eq_nil_iff l).mpr h]
    simp

theorem trimLeft_append_of_space (pre l : List Char)
    (h : ∀ c ∈ pre, unicode.IsSpace c = true) : trimLeft (pre ++ l) = trimLeft l := by
  unfold trimLeft
  exact List.dropWhile_append_of_pos h

theorem trimRight_append_of_space (l post : List Char)
    (h : ∀ c ∈ post, unicode.IsSpace c = true) : trimRight (l ++ post) = trimRight l := by
  unfold trimRight
  rw [List.reverse_append, List.dropWhile_append_of_pos]
  intro c hc
  exact h c (List.mem_reverse.mp hc)

theorem trim_append_left (pre l : List Char) (h : ∀ c ∈ pre, unicode.IsSpace c = true) :
    trimRight (trimLeft (pre ++ l)) = trimRight (trimLeft l) := by
  rw [trimLeft_append_of_space pre l h]

theorem trim_append_right (l post : List Char) (h : ∀ c ∈ post, unicode.IsSpace c = true) :
    trimRight (trimLeft (l ++ post)) = trimRight (trimLeft l) := by
  by_cases hl : ∀ c ∈ l, unicode.IsSpace c = true
  · have h1 : trimLeft (l ++ post) = [] := by
      rw [trimLeft_eq_nil_iff]
      intro c hc
      rcases List.mem_append.mp hc with hc | hc
      · exact hl c hc
      · exact h c hc
    rw [h1, (trimLeft_eq_nil_iff l).mpr hl]
  · have h1 : trimLeft (l ++ post) = trimLeft l ++ post := by
      unfold trimLeft
      rw [List.dropWhile_append]
      have : ¬ (List.dropWhile unicode.IsSpace l).isEmpty = true := by
        intro he
        apply hl
        rw [List.isEmpty_iff] at he
        exact List.dropWhile_eq_nil_iff.mp he
      simp [this]
    rw [h1, trimRight_append_of_space _ _ h]

theorem TrimSpace_eq_empty_iff (s : String) :
    TrimSpace s = "" ↔ ∀ c ∈ s.data, unicode.IsSpace c = true := by
  rw [← trim_eq_nil_iff]
  unfold TrimSpace
  constructor
  · intro h
    have := congrArg String.data h
    simpa using this
  · intro h
    rw [h]

end strings

/-! ### Nodes and users -/

namespace nodestore

/-- Options leave the id, owner, size, MD5 and stored time of a node alone. -/
theorem foldl_run_fixed (options : List NodeOption) (n : Node) :
    (options.foldl (fun n option => option.run n) n).id = n.id ∧
    (options.foldl (fun n option => option.run n) n).owner = n.owner ∧
    (options.foldl (fun n option => option.run n) n).size = n.size ∧
    (options.foldl (fun n option => option.run n) n).md5 = n.md5 ∧
    (options.foldl (fun n option => option.run n) n).stored = n.stored := by
  induction options generalizing n with
  | nil => simp
  | cons o os ih =>
    simp only [List.foldl_cons]
    obtain ⟨h1, h2, h3, h4, h5⟩ := ih (o.run n)
    rw [h1, h2, h3, h4, h5]
    cases o <;> simp [NodeOption.run, Format, FileName, Reader, Public]

/-- The users of the `Reader` options of an option list, in order. -/
theorem foldl_run_readers (options : List NodeOption) (n : Node) :
    (options.foldl (fun n option => option.run n) n).readers =
      n.readers ++ options.filterMap
        (fun o => match o with
          | .reader u => some u
          | _ => none) := by
  induction options generalizing n with
  | nil => simp
  | cons o os ih =>
    simp only [List.foldl_cons]
    rw [ih]
    cases o <;> simp [NodeOption.run, Format, FileName, Reader, Public]

/-- C1, at the failing input: `NewNode` with the option `Reader(owner)` returns
a node whose owner is an element of `GetReaders()`. -/
theorem NewNode_owner_in_readers :
    ∃ n, NewNode ⟨7⟩ ⟨⟨1⟩, "alice"⟩ 12 "5d838d477ddf355fc15df1db90bee0aa" ⟨0⟩
        [.reader ⟨⟨1⟩, "alice"⟩] = .ok n ∧
      n.GetOwner ∈ n.GetReaders :=
  ⟨_, rfl, by decide⟩

/-- C2: `NewNode` returns an error exactly when `size < 1`, and for every
`size ≥ 1` (and only then) it returns a node whose id, owner, size, MD5 and
stored time are the arguments, whatever the options. -/
theorem NewNode_error_iff_size (id : UUID) (owner : User) (size : Int) (md5 : String)
    (stored : Time) (options : List NodeOption) :
    ((∃ e, NewNode id owner size md5 stored options = .error e) ↔ size < 1) ∧
    ((∃ n, NewNode id owner size md5 stored options = .ok n ∧
        n.GetID = id ∧ n.GetOwner = owner ∧ n.GetSize = size ∧ n.GetMD5 = md5 ∧
        n.GetStoredTime = stored) ↔ 1 ≤ size) := by
  by_cases h : size < 1
  · have hn : ¬ 1 ≤ size := by omega
    simp [NewNode, h, hn]
  · have hn : 1 ≤ size := by omega
    simp only [NewNode, h, if_false, hn, iff_true, iff_false, not_exists]
    refine ⟨fun e he => (by cases he), _, rfl, ?_⟩
    obtain ⟨h1, h2, h3, h4, h5⟩ := foldl_run_fixed options
      { id := id, owner := owner, size := size, md5 := md5, stored := stored,
        readers := [], filename := "", format := "", «public» := false }
    exact ⟨h1, h2, h3, h4, h5⟩

/-- C3: `NewUser` returns an error exactly when the account name is empty
after trimming, that is when it consists of white space only; otherwise it
returns a user with the given id whose account name is the trimmed name, which
is not empty, has no white space at either end, and is the given name
without a leading and a trailing run of white space. -/
theorem NewUser_error_iff_blank (id : UUID) (accountName : String) :
    ((∃ e, NewUser id accountName = .error e) ↔ strings.TrimSpace accountName = "") ∧
    ((∃ u, NewUser id accountName = .ok u ∧ u.GetID = id ∧
        u.GetAccountName = strings.TrimSpace accountName ∧ u.GetAccountName ≠ "") ↔
      strings.TrimSpace accountName ≠ "") ∧
    (strings.TrimSpace accountName = "" ↔
      ∀ c ∈ accountName.data, unicode.IsSpace c = true) ∧
    (∃ pre post, accountName.data = pre ++ (strings.TrimSpace accountName).data ++ post ∧
      (∀ c ∈ pre, unicode.IsSpace c = true) ∧ (∀ c ∈ post, unicode.IsSpace c = true)) ∧
    (∀ c, (strings.TrimSpace accountName).data.head? = some c → unicode.IsSpace c = false) ∧
    (∀ c, (strings.TrimSpace accountName).data.getLast? = some c →
      unicode.IsSpace c = false) := by
  refine ⟨?_, ?_, strings.TrimSpace_eq_empty_iff accountName,
    strings.trim_decompose accountName.data,
    fun c h => strings.trim_head_not_space accountName.data c h,
    fun c h => strings.trimRight_getLast_not_space _ c h⟩
  · by_cases h : strings.TrimSpace accountName = "" <;> simp [NewUser, h]
  · by_cases h : strings.TrimSpace accountName = ""
    · simp [NewUser, h]
    · simp [NewUser, h, User.GetID, User.GetAccountName]

end nodestore

/-! ### Response documents -/

namespace service

theorem writeError_eq (env : Env) (e : GoError) :
    writeError env e = writeErrorWithCode (env.translateError e).2 (env.translateError e).1 :=
  rfl

theorem getNodeID_error (env : Env) (r : Request) (resp : Response)
    (h : getNodeID env r = .error resp) : resp = writeErrorWithCode "Node not found" 404 := by
  unfold getNodeID at h
  cases hp : env.uuidParse ((r.vars.lookup "id").getD "") with
  | error e => simp [hp] at h; exact h.symm
  | ok id => simp [hp] at h

theorem getNodeID_ok (env : Env) (r : Request) (id : UUID)
    (h : env.uuidParse ((r.vars.lookup "id").getD "") = .ok id) : getNodeID env r = .ok id := by
  simp [getNodeID, h]

theorem getUserRequired_none (r : Request) (h : getUser r = none) :
    getUserRequired r = .error (writeErrorWithCode "No Authorization" 401) := by
  simp [getUserRequired, h, http.StatusUnauthorized]

theorem getUserRequired_some (r : Request) (user : auth.User) (h : getUser r = some user) :
    getUserRequired r = .ok user := by
  simp [getUserRequired, h]

theorem getUserRequired_error (r : Request) (resp : Response)
    (h : getUserRequired r = .error resp) :
    resp = writeErrorWithCode "No Authorization" 401 := by
  unfold getUserRequired at h
  cases hu : getUser r with
  | none => simp [hu, http.StatusUnauthorized] at h; exact h.symm
  | some u => simp [hu] at h

/-- C4, as stated, fails: the response of a successful `deleteNode` has
`error` and `data` both null, and the root response has none of the keys
`status`, `error` and `data`. -/
theorem deleteNode_rootHandler_not_wellShaped :
    (deleteNode sampleEnv sampleServer (sampleRequest "" "")).resp.map Response.wellShaped
      = some false ∧
    (rootHandler sampleEnv sampleServer (sampleRequest "" "")).resp.map Response.wellShaped
      = some false := by
  decide

/-- C4, amended: error responses, node responses and ACL responses have the
keys `status`, `error` and `data` with exactly one of `error` and `data` not
null, a non-null `error` being an array of one string (the error responses
carry the error, the other two the data); a response of `deleteNode` is an
error response or the success document, which has the three keys with `error`
and `data` both null; the root response has none of the three keys. -/
theorem response_shapes (env : Env) (s : Server) (r : Request) (err : String) (code : Int)
    (e : GoError) (node : core.BlobNode) :
    ((writeErrorWithCode err code).wellShaped = true ∧
      (writeErrorWithCode err code).json.bind (JSON.get "error") = some (.arr [.str err]) ∧
      (writeErrorWithCode err code).json.bind (JSON.get "data") = some .null) ∧
    ((writeError env e).wellShaped = true ∧
      (writeError env e).json.bind (JSON.get "data") = some .null) ∧
    ((writeNode env node).wellShaped = true ∧
      (writeNode env node).json.bind (JSON.get "error") = some .null) ∧
    ((writeACL env r node).wellShaped = true ∧
      (writeACL env r node).json.bind (JSON.get "error") = some .null) ∧
    ((deleteNode env s r).resp = some deleteNodeResponse ∨
      ∃ msg c, (deleteNode env s r).resp = some (writeErrorWithCode msg c)) ∧
    (deleteNodeResponse.json.map hasEnvelopeKeys = some true ∧
      deleteNodeResponse.json.bind (JSON.get "error") = some .null ∧
      deleteNodeResponse.json.bind (JSON.get "data") = some .null) ∧
    (∃ doc, (rootHandler env s r).resp.bind Response.json = some doc ∧
      doc.get "status" = none ∧ doc.get "error" = none ∧ doc.get "data" = none) := by
  refine ⟨⟨rfl, rfl, rfl⟩, ⟨rfl, rfl⟩, ⟨rfl, rfl⟩, ⟨rfl, rfl⟩, ?_, ⟨rfl, rfl, rfl⟩,
    ⟨_, rfl, rfl, rfl, rfl⟩⟩
  unfold deleteNode
  cases h1 : getNodeID env r with
  | error resp0 =>
    exact Or.inr ⟨_, _, congrArg some (getNodeID_error env r resp0 h1)⟩
  | ok id =>
    cases h2 : getUserRequired r with
    | error resp0 =>
      exact Or.inr ⟨_, _, congrArg some (getUserRequired_error r resp0 h2)⟩
    | ok user =>
      cases h3 : s.store.DeleteNode user id with
      | none => exact Or.inl (by simp only [h3])
      | some err =>
        exact Or.inr ⟨(env.translateError err).2, (env.translateError err).1, by
          simp only [h3]; rfl⟩

end service

/-! ### Requests without an authenticated user -/

namespace service

theorem getACLParams_ok (env : Env) (r : Request) (id : UUID)
    (hid : env.uuidParse ((r.vars.lookup "id").getD "") = .ok id)
    (hacl : (r.vars.lookup "acltype").getD "" ∈ aclTypes) :
    getACLParams env r = .ok (id, (r.vars.lookup "acltype").getD "") := by
  simp [getACLParams, getACLType, hacl, getNodeID_ok env r id hid]

/-- C5: when the request context carries no user, `createNode`, `copyNode`,
`deleteNode` and `setNodeACL` make no call at all on the blob store (nor on
the auth cache); `createNode` answers 401 "No Authorization", and so do
`copyNode`, `deleteNode` and `setNodeACL` whenever the node id in the path
parses as a UUID and (for `setNodeACL`) the ACL type is one of `aclTypes`. -/
theorem anonymous_makes_no_call (env : Env) (s : Server) (r : Request)
    (h : getUser r = none) :
    (createNode env s r).calls = [] ∧
    (createNode env s r).resp = some (writeErrorWithCode "No Authorization" 401) ∧
    (copyNode env s r).calls = [] ∧
    (deleteNode env s r).calls = [] ∧
    (∀ add, (setNodeACL env s r add).calls = []) ∧
    (∀ id, env.uuidParse ((r.vars.lookup "id").getD "") = .ok id →
      (copyNode env s r).resp = some (writeErrorWithCode "No Authorization" 401) ∧
      (deleteNode env s r).resp = some (writeErrorWithCode "No Authorization" 401) ∧
      ((r.vars.lookup "acltype").getD "" ∈ aclTypes → ∀ add,
        (setNodeACL env s r add).resp = some (writeErrorWithCode "No Authorization" 401))) ∧
    (writeErrorWithCode "No Authorization" 401).isError 401 "No Authorization" := by
  have hu := getUserRequired_none r h
  refine ⟨?_, ?_, ?_, ?_, ?_, ?_, ⟨rfl, rfl⟩⟩
  · simp [createNode, hu]
  · simp [createNode, hu]
  · unfold copyNode
    cases getNodeID env r <;> simp [hu]
  · unfold deleteNode
    cases getNodeID env r <;> simp [hu]
  · intro add
    unfold setNodeACL
    cases getACLParams env r <;> simp [hu]
  · intro id hid
    refine ⟨?_, ?_, ?_⟩
    · simp [copyNode, getNodeID_ok env r id hid, hu]
    · simp [deleteNode, getNodeID_ok env r id hid, hu]
    · intro hacl add
      simp [setNodeACL, getACLParams_ok env r id hid hacl, hu]

/-- C5 at a request without user for the sample node and ACL type `read`. -/
theorem anonymous_makes_no_call_witness :
    getUser (anonymousRequest "read") = none ∧
    (createNode sampleEnv sampleServer (anonymousRequest "read")).calls = [] ∧
    (setNodeACL sampleEnv sampleServer (anonymousRequest "read") true).calls = [] ∧
    (setNodeACL sampleEnv sampleServer (anonymousRequest "read") true).resp =
      some (writeErrorWithCode "No Authorization" 401) :=
  have h := anonymous_makes_no_call sampleEnv sampleServer (anonymousRequest "read") rfl
  ⟨rfl, h.1, h.2.2.2.2.1 true,
    (h.2.2.2.2.2.1 ⟨1⟩ rfl).2.2 (by decide) true⟩

end service

/-! ### The authorization header -/

namespace strings

theorem fieldsAux_eq_nil_iff (l cur : List Char) :
    fieldsAux l cur = [] ↔ cur = [] ∧ ∀ c ∈ l, unicode.IsSpace c = true := by
  induction l generalizing cur with
  | nil => simp [fieldsAux]
  | cons a t ih =>
    unfold fieldsAux
    by_cases ha : unicode.IsSpace a = true
    · by_cases hc : cur = []
      · simp [ha, hc, ih]
      · simp [ha, hc]
    · simp only [ha, if_false, Bool.false_eq_true]
      rw [ih]
      simp [ha]

/-- A header has no field exactly when it trims to the empty string. -/
theorem Fields_eq_nil_iff (s : String) : Fields s = [] ↔ TrimSpace s = "" := by
  rw [TrimSpace_eq_empty_iff, Fields, fieldsAux_eq_nil_iff]
  simp

end strings

namespace unicode

/-- Apart from the two code points that Unicode lowers into ASCII, the
Unicode and the ASCII lower case of a character agree on whether they are a
given character. -/
theorem ToLower_eq_iff (c x : Char) (hi : x ≠ 'i') (hk : x ≠ 'k')
    (hI : x ≠ '\u0130') (hK : x ≠ '\u212a') :
    ToLower c = x ↔ http.lower c = x := by
  unfold ToLower http.lower
  split_ifs with h1 h2 h3
  · rfl
  · subst h2
    exact ⟨fun h => absurd h.symm hi, fun h => absurd h.symm hI⟩
  · subst h3
    exact ⟨fun h => absurd h.symm hk, fun h => absurd h.symm hK⟩
  · rfl

theorem map_ToLower_eq_iff (l m : List Char)
    (hm : ∀ x ∈ m, x ≠ 'i' ∧ x ≠ 'k' ∧ x ≠ '\u0130' ∧ x ≠ '\u212a') :
    l.map ToLower = m ↔ l.map http.lower = m := by
  induction l generalizing m with
  | nil => simp
  | cons a t ih =>
    cases m with
    | nil => simp
    | cons b m' =>
      obtain ⟨h1, h2, h3, h4⟩ := hm b (by simp)
      simp only [List.map_cons, List.cons.injEq]
      rw [ToLower_eq_iff a b h1 h2 h3 h4, ih m' (fun x hx => hm x (by simp [hx]))]

end unicode

namespace strings

/-- Lowering with `strings.ToLower` gives "oauth" exactly for the strings
equal to "oauth" ignoring the case of the ASCII letters. -/
theorem ToLower_eq_oauth_iff (a : String) :
    ToLower a = "oauth" ↔ service.equalIgnoringCase a "oauth" = true := by
  have h := unicode.map_ToLower_eq_iff a.data ['o', 'a', 'u', 't', 'h'] (by decide)
  unfold ToLower service.equalIgnoringCase
  constructor
  · intro h1
    have h2 : a.data.map unicode.ToLower = ['o', 'a', 'u', 't', 'h'] := by
      have := congrArg String.data h1
      simpa using this
    have h3 := h.mp h2
    rw [h3]
    decide
  · intro h1
    have h2 : a.data.map http.lower = ['o', 'a', 'u', 't', 'h'] := by
      have h4 : a.data.map http.lower = "oauth".data.map http.lower := by
        simpa using h1
      rw [h4]
      decide
    rw [h.mpr h2]

end strings

namespace service

/-- C6: `getTokenFromHeader` returns the empty token without error when the
header is empty or white space only; returns the second field without error
when the header has exactly two white-space separated fields and the first
equals "oauth" ignoring letter case; and returns the error
`invalidAuthHeader` in every other case, which the middleware answers with
status 400 and the message of the error, calling neither the auth cache nor
the next handler. The first two cases exclude each other. -/
theorem getTokenFromHeader_cases (env : Env) (s : Server) (r : Request) :
    (strings.TrimSpace (r.Header.Get "authorization") = "" ↔
      ∀ c ∈ (r.Header.Get "authorization").data, unicode.IsSpace c = true) ∧
    (strings.TrimSpace (r.Header.Get "authorization") = "" →
      getTokenFromHeader env r = .ok "") ∧
    (∀ scheme token, strings.Fields (r.Header.Get "authorization") = [scheme, token] →
      equalIgnoringCase scheme "oauth" = true →
      strings.TrimSpace (r.Header.Get "authorization") ≠ "" ∧
      getTokenFromHeader env r = .ok token) ∧
    (strings.TrimSpace (r.Header.Get "authorization") ≠ "" →
      (¬ ∃ scheme token, strings.Fields (r.Header.Get "authorization") = [scheme, token] ∧
        equalIgnoringCase scheme "oauth" = true) →
      getTokenFromHeader env r = .error (errors.New env.invalidAuthHeader)) ∧
    (∀ err, getTokenFromHeader env r = .error err → ∀ next,
      authLogMiddleWare env s next r = ⟨[], some (writeErrorWithCode err.msg 400)⟩) := by
  refine ⟨strings.TrimSpace_eq_empty_iff _, ?_, ?_, ?_, ?_⟩
  · intro h
    simp [getTokenFromHeader, h]
  · intro scheme token hf heq
    have hne : strings.TrimSpace (r.Header.Get "authorization") ≠ "" := by
      intro h0
      rw [← strings.Fields_eq_nil_iff, hf] at h0
      cases h0
    refine ⟨hne, ?_⟩
    have hl := (strings.ToLower_eq_oauth_iff scheme).mpr heq
    simp [getTokenFromHeader, hne, hf, hl]
  · intro hne hno
    unfold getTokenFromHeader
    simp only [hne, if_false]
    by_cases hlen : (strings.Fields (r.Header.Get "authorization")).length ≠ 2
    · simp [hlen]
    · have hlen2 : (strings.Fields (r.Header.Get "authorization")).length = 2 := by
        simpa using hlen
      obtain ⟨a, b, hab⟩ := List.length_eq_two.mp hlen2
      have hl : strings.ToLower a ≠ "oauth" := by
        intro h
        exact hno ⟨a, b, hab, (strings.ToLower_eq_oauth_iff a).mp h⟩
      simp [hab, hl]
  · intro err herr next
    simp [authLogMiddleWare, herr]

/-- C6 at the header `OAuth tok` of the sample request. -/
theorem getTokenFromHeader_cases_witness :
    getTokenFromHeader sampleEnv (sampleRequest "" "") = .ok "tok" :=
  ((getTokenFromHeader_cases sampleEnv sampleServer (sampleRequest "" "")).2.2.1
    "OAuth" "tok" (by decide) (by decide)).2

end service

/-! ### Client address -/

namespace strings

theorem indexFrom_of_not_mem (sep : Char) (l : List Char) (i : Nat) (h : sep ∉ l) :
    indexFrom sep l i = -1 := by
  induction l generalizing i with
  | nil => rfl
  | cons a t ih =>
    have ha : a ≠ sep := fun e => h (by simp [e])
    have ht : sep ∉ t := fun e => h (by simp [e])
    simp [indexFrom, ha, ih (i + 1) ht]

theorem indexFrom_of_mem (sep : Char) (l : List Char) (i : Nat) (h : sep ∈ l) :
    indexFrom sep l i = ((i + (l.takeWhile (fun c => c != sep)).length : Nat) : Int) := by
  induction l generalizing i with
  | nil => simp at h
  | cons a t ih =>
    by_cases ha : a = sep
    · simp [indexFrom, ha]
    · have ht : sep ∈ t := by
        rcases List.mem_cons.mp h with e | e
        · exact absurd e.symm ha
        · exact e
      simp only [indexFrom, ha, if_false, ih (i + 1) ht]
      have : (a != sep) = true := by simpa using ha
      simp only [List.takeWhile_cons, this, if_true, List.length_cons]
      congr 1
      omega

theorem take_length_takeWhile (p : Char → Bool) (l : List Char) :
    l.take (l.takeWhile p).length = l.takeWhile p := by
  induction l with
  | nil => rfl
  | cons a t ih =>
    by_cases ha : p a = true
    · simp [List.takeWhile_cons, ha, ih]
    · simp [List.takeWhile_cons, ha]

/-- Slicing a string at the offset of its first comma, or at its length when
it has none, gives the text before the first comma. -/
theorem sliceTo_Index (s : String) :
    sliceTo s (if Index s ',' = -1 then (s.length : Int) else Index s ',') =
      service.beforeFirstComma s := by
  unfold sliceTo service.beforeFirstComma Index
  congr 1
  by_cases h : ',' ∈ s.data
  · rw [indexFrom_of_mem ',' s.data 0 h]
    have hne : ¬ (((0 + (s.data.takeWhile (fun c => c != ',')).length : Nat) : Int) = -1) := by
      omega
    simp only [hne, if_false, Int.toNat_ofNat, Nat.zero_add]
    exact take_length_takeWhile _ _
  · rw [indexFrom_of_not_mem ',' s.data 0 h]
    simp only [if_true, Int.toNat_ofNat, String.length]
    rw [List.take_length]
    symm
    rw [List.takeWhile_eq_self_iff]
    intro x hx
    have : x ≠ ',' := fun e => h (e ▸ hx)
    simpa using this

end strings

namespace service

/-- C7: `getIP` resolves the client address as the specification words it:
with proxy headers trusted, the trimmed text before the first comma of
`X-Forwarded-For` if not empty, otherwise the trimmed `X-Real-IP` if not
empty, otherwise `RemoteAddr`; with proxy headers ignored, `RemoteAddr`
whatever the headers are. -/
theorem getIP_eq_resolveIP (r : Request) (ignoreXIPHeaders : Bool) :
    getIP r ignoreXIPHeaders = resolveIP r ignoreXIPHeaders ∧
    getIP r true = r.RemoteAddr := by
  refine ⟨?_, by simp [getIP]⟩
  unfold getIP resolveIP
  by_cases hi : ignoreXIPHeaders = true
  · simp [hi]
  · simp only [hi, if_false, Bool.false_eq_true]
    rw [strings.sliceTo_Index]
    by_cases h1 : strings.TrimSpace (beforeFirstComma (r.Header.Get "X-Forwarded-For")) = ""
    · by_cases h2 : strings.TrimSpace (r.Header.Get "X-Real-IP") = ""
      · simp [h1, h2]
      · simp [h1, h2]
    · simp [h1]

end service

/-! ### ACL types without an action -/

namespace service

/-- C8, as stated, fails: an authenticated PUT with ACL type `write` on an
existing node is answered with status 200, not 400. -/
theorem setNodeACL_write_not_rejected :
    getUser (sampleRequest "write" "bob") = some ⟨"alice"⟩ ∧
    (sampleRequest "write" "bob").vars.lookup "acltype" = some "write" ∧
    (setNodeACL sampleEnv sampleServer (sampleRequest "write" "bob") true).resp.map
      (fun resp => resp.code) = some 200 ∧
    (setNodeACL sampleEnv sampleServer (sampleRequest "write" "bob") true).resp.map
      Response.wellShaped = some true ∧
    (setNodeACL sampleEnv sampleServer (sampleRequest "write" "bob") true).resp.bind
      (fun resp => resp.json.bind (JSON.get "error")) = some .null :=
  ⟨by decide, by decide, by decide, by decide, rfl⟩

/-- C8, amended: for an authenticated PUT or DELETE with a node id that parses
and ACL type `write`, `delete`, `public_write` or `public_delete`,
`setNodeACL` changes no ACL: its only call is `Get` for the node, and it
answers with the ACL of the node that `Get` returns (status 200), or with the
error of `Get`. -/
theorem setNodeACL_vestigial (env : Env) (s : Server) (r : Request) (add : Bool)
    (user : auth.User) (id : UUID)
    (hu : getUser r = some user)
    (hid : env.uuidParse ((r.vars.lookup "id").getD "") = .ok id)
    (hacl : (r.vars.lookup "acltype").getD "" ∈
      ["write", "delete", "public_write", "public_delete"]) :
    (setNodeACL env s r add).calls = [.Get (some user) id none] ∧
    (∀ c ∈ (setNodeACL env s r add).calls, c.isACLMutation = false) ∧
    (∀ node, s.store.Get (some user) id none = .ok node →
      (setNodeACL env s r add).resp = some (writeACL env r node) ∧
      (writeACL env r node).code = 200) ∧
    (∀ err, s.store.Get (some user) id none = .error err →
      (setNodeACL env s r add).resp = some (writeError env err)) := by
  have hacl2 : (r.vars.lookup "acltype").getD "" ∈ aclTypes := by
    simp only [List.mem_cons, List.mem_singleton, aclTypes] at hacl ⊢
    rcases hacl with h | h | h | h | h <;> simp [h]
  have h1 : (r.vars.lookup "acltype").getD "" ≠ "public_read" := by
    intro h; rw [h] at hacl; revert hacl; decide
  have h2 : (r.vars.lookup "acltype").getD "" ≠ "read" := by
    intro h; rw [h] at hacl; revert hacl; decide
  have h3 : (r.vars.lookup "acltype").getD "" ≠ "owner" := by
    intro h; rw [h] at hacl; revert hacl; decide
  have hset : setNodeACL env s r add = getAndWriteACL env s r (some user) id := by
    simp [setNodeACL, getACLParams_ok env r id hid hacl2, getUserRequired_some r user hu,
      h1, h2, h3]
  rw [hset]
  unfold getAndWriteACL
  cases hg : s.store.Get (some user) id none with
  | error err => simp [Call.isACLMutation]
  | ok node => simp [Call.isACLMutation]; rfl

/-- C8, amended, at the sample request with ACL type `public_write`. -/
theorem setNodeACL_vestigial_witness :
    (setNodeACL sampleEnv sampleServer (sampleRequest "public_write" "bob") false).calls
      = [.Get (some ⟨"alice"⟩) ⟨1⟩ none] :=
  (setNodeACL_vestigial sampleEnv sampleServer (sampleRequest "public_write" "bob") false
    ⟨"alice"⟩ ⟨1⟩ rfl rfl (by decide)).1

end service

/-! ### The user list of an ACL request -/

namespace strings

theorem splitList_cons (sep a : Char) (t : List Char) :
    splitList sep (a :: t) =
      if a = sep then [] :: splitList sep t
      else
        match splitList sep t with
        | [] => [[a]]
        | piece :: rest => (a :: piece) :: rest := rfl

theorem splitList_head (sep : Char) (x : List Char) :
    ∃ H T, splitList sep x = H :: T := by
  cases x with
  | nil => exact ⟨[], [], rfl⟩
  | cons a t =>
    rw [splitList_cons]
    by_cases ha : a = sep
    · rw [if_pos ha]
      exact ⟨_, _, rfl⟩
    · rw [if_neg ha]
      cases splitList sep t with
      | nil => exact ⟨_, _, rfl⟩
      | cons p q => exact ⟨_, _, rfl⟩

/-- A prefix without separator goes in front of the first piece. -/
theorem splitList_append_left (sep : Char) (pre x : List Char) (h : sep ∉ pre) :
    ∃ H T, splitList sep x = H :: T ∧ splitList sep (pre ++ x) = (pre ++ H) :: T := by
  induction pre with
  | nil =>
    obtain ⟨H, T, hx⟩ := splitList_head sep x
    exact ⟨H, T, hx, by simpa using hx⟩
  | cons a p ih =>
    have ha : a ≠ sep := fun e => h (by simp [e])
    have hp : sep ∉ p := fun e => h (by simp [e])
    obtain ⟨H, T, hx, hpx⟩ := ih hp
    refine ⟨H, T, hx, ?_⟩
    rw [List.cons_append, splitList_cons, if_neg ha, hpx]
    rfl

/-- A suffix without separator goes behind the last piece. -/
theorem splitList_append_right (sep : Char) (x post : List Char) (h : sep ∉ post) :
    ∃ D La, splitList sep x = D ++ [La] ∧ splitList sep (x ++ post) = D ++ [La ++ post] := by
  induction x with
  | nil =>
    obtain ⟨H, T, hx, hpx⟩ := splitList_append_left sep post [] h
    have hx2 : splitList sep [] = [[]] := rfl
    rw [hx2] at hx
    simp only [List.cons.injEq] at hx
    obtain ⟨hH, hT⟩ := hx
    subst hH hT
    refine ⟨[], [], rfl, ?_⟩
    simpa using hpx
  | cons a t ih =>
    obtain ⟨D, La, ht, htp⟩ := ih
    by_cases ha : a = sep
    · refine ⟨[] :: D, La, ?_, ?_⟩
      · rw [splitList_cons, if_pos ha, ht]
        rfl
      · rw [List.cons_append, splitList_cons, if_pos ha, htp]
        rfl
    · cases D with
      | nil =>
        refine ⟨[], a :: La, ?_, ?_⟩
        · rw [splitList_cons, if_neg ha, ht]
          rfl
        · rw [List.cons_append, splitList_cons, if_neg ha, htp]
          rfl
      | cons d D2 =>
        refine ⟨(a :: d) :: D2, La, ?_, ?_⟩
        · rw [splitList_cons, if_neg ha, ht]
          rfl
        · rw [List.cons_append, splitList_cons, if_neg ha, htp]
          rfl

theorem not_mem_of_all_space (l : List Char) (h : ∀ c ∈ l, unicode.IsSpace c = true) :
    ',' ∉ l := by
  intro hm
  have := h ',' hm
  revert this
  decide

/-- Trimming a string before splitting it at the commas changes no trimmed
piece. -/
theorem map_trim_splitList_trim (l : List Char) :
    (splitList ',' (trimRight (trimLeft l))).map (fun p => trimRight (trimLeft p)) =
      (splitList ',' l).map (fun p => trimRight (trimLeft p)) := by
  obtain ⟨pre, post, hl, hpre, hpost⟩ := trim_decompose l
  obtain ⟨D, La, h1, h2⟩ := splitList_append_right ',' (trimRight (trimLeft l)) post
    (not_mem_of_all_space post hpost)
  obtain ⟨H, T, h3, h4⟩ := splitList_append_left ',' pre (trimRight (trimLeft l) ++ post)
    (not_mem_of_all_space pre hpre)
  have hl2 : splitList ',' l = (pre ++ H) :: T := by
    rw [← h4, ← List.append_assoc, ← hl]
  have e1 : ((pre ++ H) :: T).map (fun p => trimRight (trimLeft p)) =
      (H :: T).map (fun p => trimRight (trimLeft p)) := by
    simp only [List.map_cons, trim_append_left pre H hpre]
  have e2 : (D ++ [La ++ post]).map (fun p => trimRight (trimLeft p)) =
      (D ++ [La]).map (fun p => trimRight (trimLeft p)) := by
    simp only [List.map_append, List.map_cons, List.map_nil, trim_append_right La post hpost]
  rw [hl2, e1, ← h3, h2, e2, ← h1]

theorem TrimSpace_mk (l : List Char) : TrimSpace ⟨l⟩ = ⟨trimRight (trimLeft l)⟩ := rfl

/-- String form of `map_trim_splitList_trim`. -/
theorem map_TrimSpace_Split_TrimSpace (v : String) :
    (Split (TrimSpace v) ',').map TrimSpace = (Split v ',').map TrimSpace := by
  unfold Split
  simp only [List.map_map]
  have h : (TrimSpace ∘ String.mk) = (String.mk ∘ fun p => trimRight (trimLeft p)) := by
    funext p
    rfl
  rw [h, ← List.map_map, ← List.map_map]
  congr 1
  exact map_trim_splitList_trim v.data

end strings

namespace service

theorem userListLoop_foldl (uls acc : List String) :
    uls.foldl (fun ulst s =>
      let s := strings.TrimSpace s
      if s ≠ "" then ulst ++ [s] else ulst) acc =
    acc ++ (uls.map strings.TrimSpace).filter (fun s => s ≠ "") := by
  induction uls generalizing acc with
  | nil => simp
  | cons a t ih =>
    simp only [List.foldl_cons, List.map_cons]
    rw [ih]
    by_cases h : strings.TrimSpace a = ""
    · simp [h]
    · simp [h]

/-- The loop keeps the trimmed pieces that are not empty, in order. -/
theorem userListLoop_eq (uls : List String) :
    userListLoop uls = (uls.map strings.TrimSpace).filter (fun s => s ≠ "") := by
  unfold userListLoop
  rw [userListLoop_foldl]
  simp

theorem getQuery_eq (r : Request) (param : String) :
    getQuery r param = strings.TrimSpace (queryValue r param) := by
  unfold getQuery queryValue
  cases (r.query.lookup param).getD [] with
  | nil => rfl
  | cons v t => rfl

/-- The list `getUserList` computes from the trimmed parameter is the list of
entries of the parameter as sent. -/
theorem userListLoop_getQuery (r : Request) :
    userListLoop (strings.Split (getQuery r "users") ',') =
      userEntries (queryValue r "users") := by
  rw [userListLoop_eq, getQuery_eq, strings.map_TrimSpace_Split_TrimSpace]
  rfl

theorem noUsers_ne_tooMany :
    writeErrorWithCode noUsersError 400 ≠ writeErrorWithCode tooManyUsersError 400 := by
  intro h
  have h2 := congrArg (fun resp => resp.json.bind (JSON.get "error")) h
  simp only [writeErrorWithCode, encodeToJSON, Response.json, Option.bind, JSON.get] at h2
  revert h2
  simp [List.lookup, noUsersError, tooManyUsersError]

/-- C9: `getUserList` works on the list of the comma-separated entries of the
`users` parameter, each trimmed, the empty ones dropped, in order. It fails
with status 400 and `noUsersError`, without consulting the auth cache,
exactly when that list is empty; it fails with status 400 and
`tooManyUsersError`, without consulting the auth cache, exactly when
`singleUser` holds and the list has more than one entry; otherwise it submits
exactly that list for validation, once, and returns it when the validation
succeeds. -/
theorem getUserList_spec (env : Env) (s : Server) (r : Request) (singleUser : Bool) :
    (getUserList env s r singleUser =
      if userEntries (queryValue r "users") = [] then
        ([], .error (writeErrorWithCode noUsersError 400))
      else if singleUser = true ∧ (userEntries (queryValue r "users")).length > 1 then
        ([], .error (writeErrorWithCode tooManyUsersError 400))
      else
        ([.ValidateUserNames (userEntries (queryValue r "users")) (getToken r)],
          match s.auth.ValidateUserNames (userEntries (queryValue r "users")) (getToken r) with
          | some err => .error (writeError env err)
          | none => .ok (userEntries (queryValue r "users")))) ∧
    (getUserList env s r singleUser = ([], .error (writeErrorWithCode noUsersError 400)) ↔
      userEntries (queryValue r "users") = []) ∧
    (getUserList env s r singleUser = ([], .error (writeErrorWithCode tooManyUsersError 400)) ↔
      (singleUser = true ∧ (userEntries (queryValue r "users")).length > 1)) := by
  have heq : getUserList env s r singleUser =
      if userEntries (queryValue r "users") = [] then
        ([], .error (writeErrorWithCode noUsersError 400))
      else if singleUser = true ∧ (userEntries (queryValue r "users")).length > 1 then
        ([], .error (writeErrorWithCode tooManyUsersError 400))
      else
        ([.ValidateUserNames (userEntries (queryValue r "users")) (getToken r)],
          match s.auth.ValidateUserNames (userEntries (queryValue r "users")) (getToken r) with
          | some err => .error (writeError env err)
          | none => .ok (userEntries (queryValue r "users"))) := by
    unfold getUserList
    simp only [userListLoop_getQuery]
    cases hL : userEntries (queryValue r "users") with
    | nil => simp
    | cons a t =>
      by_cases h2 : singleUser = true ∧ (a :: t).length > 1
      · have hlen : 0 < t.length := by
          have := h2.2
          simp only [List.length_cons, gt_iff_lt] at this
          omega
        simp [h2.1, hlen]
      · simp only [List.length_cons, gt_iff_lt] at h2
        simp only [List.length_cons, gt_iff_lt, h2, if_false]
        cases hv : s.auth.ValidateUserNames (a :: t) (getToken r) <;> simp
  refine ⟨heq, ?_, ?_⟩
  · rw [heq]
    by_cases h1 : userEntries (queryValue r "users") = []
    · simp [h1]
    · by_cases h2 : singleUser = true ∧ (userEntries (queryValue r "users")).length > 1
      · simp only [h1, h2, if_false, if_true, and_self, iff_false]
        intro h
        simp only [Prod.mk.injEq, Except.error.injEq, true_and] at h
        exact noUsers_ne_tooMany h.symm
      · simp [h1, h2]
  · rw [heq]
    by_cases h1 : userEntries (queryValue r "users") = []
    · simp only [h1, if_true, List.length_nil, gt_iff_lt]
      constructor
      · intro h
        simp only [Prod.mk.injEq, Except.error.injEq, true_and] at h
        exact absurd h noUsers_ne_tooMany
      · intro h
        omega
    · by_cases h2 : singleUser = true ∧ (userEntries (queryValue r "users")).length > 1
      · simp [h1, h2]
      · simp [h1, h2]

/-- C9 at the `users` parameter ` bob ,, carol `: the list is `bob`, `carol`. -/
theorem getUserList_spec_witness :
    getUserList sampleEnv sampleServer (sampleRequest "read" " bob ,, carol ") false =
      ([.ValidateUserNames ["bob", "carol"] "tok"], .ok ["bob", "carol"]) :=
  (getUserList_spec sampleEnv sampleServer (sampleRequest "read" " bob ,, carol ") false).1

end service

/-! ### The ACL document -/

namespace service

theorem toUsers_foldl (env : Env) (users : List core.User) (verbose : Bool) (acc : List JSON) :
    users.foldl (fun ulist u => ulist ++ [toUser env u verbose]) acc =
      acc ++ users.map (fun u => toUser env u verbose) := by
  induction users generalizing acc with
  | nil => simp
  | cons u t ih => simp [ih]

/-- The loop of `toUsers` renders the users one by one, in their order. -/
theorem toUsers_eq_map (env : Env) (users : List core.User) (verbose : Bool) :
    toUsers env users verbose = users.map (fun u => toUser env u verbose) := by
  unfold toUsers
  rw [toUsers_foldl]
  rfl

/-- C10: the document of `fromNodeToACL` has exactly the keys `owner`,
`delete`, `write`, `read` and `public`; `owner` is the rendering of the owner
of the node, `delete` and `write` are the one-element list of that rendering,
`read` lists the renderings of the readers in their stored order, and
`public` is `{write: false, delete: false, read: node.Public}`. A user is
rendered as the UUID string when not verbose and as `{uuid, username}` when
verbose. -/
theorem fromNodeToACL_shape (env : Env) (node : core.BlobNode) (verbose : Bool)
    (user : core.User) :
    (fromNodeToACL env node verbose).get "owner" = some (toUser env node.Owner verbose) ∧
    (fromNodeToACL env node verbose).get "delete" =
      some (.arr [toUser env node.Owner verbose]) ∧
    (fromNodeToACL env node verbose).get "write" =
      some (.arr [toUser env node.Owner verbose]) ∧
    (fromNodeToACL env node verbose).get "read" =
      some (.arr (node.Readers.map (fun u => toUser env u verbose))) ∧
    (∃ pub, (fromNodeToACL env node verbose).get "public" = some pub ∧
      pub.get "write" = some (.bool false) ∧ pub.get "delete" = some (.bool false) ∧
      pub.get "read" = some (.bool node.Public) ∧
      pub.keys.length = 3) ∧
    (fromNodeToACL env node verbose).keys.length = 5 ∧
    toUser env user false = .str (env.uuidString user.ID) ∧
    (toUser env user true).get "uuid" = some (.str (env.uuidString user.ID)) ∧
    (toUser env user true).get "username" = some (.str user.AccountName) ∧
    (toUser env user true).keys.length = 2 := by
  refine ⟨rfl, rfl, rfl, ?_, ⟨_, rfl, rfl, rfl, rfl, rfl⟩, rfl, rfl, rfl, rfl, rfl⟩
  rw [← toUsers_eq_map]
  rfl

end service

/-! ### Readers, file name and format of a new node -/

namespace nodestore

/-- C11, at the failing input: `NewNode` with the option `Reader(bob)` given
twice returns a node whose `GetReaders()` holds `bob` twice. -/
theorem NewNode_duplicate_reader :
    ∃ n, NewNode ⟨7⟩ ⟨⟨1⟩, "alice"⟩ 12 "5d838d477ddf355fc15df1db90bee0aa" ⟨0⟩
        [.reader ⟨⟨2⟩, "bob"⟩, .reader ⟨⟨2⟩, "bob"⟩] = .ok n ∧
      n.GetReaders = [⟨⟨2⟩, "bob"⟩, ⟨⟨2⟩, "bob"⟩] ∧
      ¬ n.GetReaders.Nodup :=
  ⟨_, rfl, by decide, by decide⟩

theorem getLast?_filterMap_concat {α β : Type} (f : α → Option β) (l : List α) (a : α) :
    ((l ++ [a]).filterMap f).getLast? =
      match f a with
      | some b => some b
      | none => (l.filterMap f).getLast? := by
  rw [List.filterMap_append]
  cases h : f a with
  | none => simp [List.filterMap_cons, h]
  | some b => simp [List.filterMap_cons, h]

/-- After the options, the file name of a node is the trimmed argument of the
last `FileName` option, or the file name it had. -/
theorem foldl_run_filename (options : List NodeOption) (n : Node) :
    (options.foldl (fun n option => option.run n) n).filename =
      match lastFileName options with
      | some f => strings.TrimSpace f
      | none => n.filename := by
  induction options using List.reverseRecOn with
  | nil => rfl
  | append_singleton os o ih =>
    rw [List.foldl_append]
    simp only [List.foldl_cons, List.foldl_nil]
    unfold lastFileName at *
    rw [getLast?_filterMap_concat]
    cases o <;> first | exact ih | rfl

/-- After the options, the format of a node is the trimmed argument of the
last `Format` option, or the format it had. -/
theorem foldl_run_format (options : List NodeOption) (n : Node) :
    (options.foldl (fun n option => option.run n) n).format =
      match lastFormat options with
      | some f => strings.TrimSpace f
      | none => n.format := by
  induction options using List.reverseRecOn with
  | nil => rfl
  | append_singleton os o ih =>
    rw [List.foldl_append]
    simp only [List.foldl_cons, List.foldl_nil]
    unfold lastFormat at *
    rw [getLast?_filterMap_concat]
    cases o <;> first | exact ih | rfl

theorem isTrimmed_TrimSpace (s : String) : isTrimmed (strings.TrimSpace s) :=
  ⟨fun c h => strings.trim_head_not_space s.data c h,
    fun c h => strings.trimRight_getLast_not_space _ c h⟩

theorem isTrimmed_empty : isTrimmed "" :=
  ⟨fun c h => by simp at h, fun c h => by simp at h⟩

/-- C15: for every option list, `NewNode` with a size of at least 1 returns a
node whose `GetFileName` is the trimmed argument of the last `FileName`
option, empty if there is none, and whose `GetFormat` is the trimmed argument
of the last `Format` option, empty if there is none; neither starts or ends
with white space. -/
theorem NewNode_filename_format (id : UUID) (owner : User) (size : Int) (md5 : String)
    (stored : Time) (options : List NodeOption) (hsize : 1 ≤ size) :
    ∃ n, NewNode id owner size md5 stored options = .ok n ∧
      n.GetFileName = ((lastFileName options).map strings.TrimSpace).getD "" ∧
      n.GetFormat = ((lastFormat options).map strings.TrimSpace).getD "" ∧
      isTrimmed n.GetFileName ∧ isTrimmed n.GetFormat := by
  have hs : ¬ size < 1 := by omega
  have hn : NewNode id owner size md5 stored options =
      .ok (options.foldl (fun n option => option.run n)
        { id := id, owner := owner, size := size, md5 := md5, stored := stored,
          readers := [], filename := "", format := "", «public» := false }) := by
    simp only [NewNode, hs, if_false]
  refine ⟨_, hn, ?_, ?_, ?_, ?_⟩
  · simp only [Node.GetFileName, foldl_run_filename]
    cases lastFileName options <;> rfl
  · simp only [Node.GetFormat, foldl_run_format]
    cases lastFormat options <;> rfl
  · simp only [Node.GetFileName, foldl_run_filename]
    cases lastFileName options with
    | none => exact isTrimmed_empty
    | some f => exact isTrimmed_TrimSpace f
  · simp only [Node.GetFormat, foldl_run_format]
    cases lastFormat options with
    | none => exact isTrimmed_empty
    | some f => exact isTrimmed_TrimSpace f

/-- C15 at two `FileName` options and one `Format` option: the last file name
wins and both values are trimmed. -/
theorem NewNode_filename_format_witness :
    ∃ n, NewNode ⟨7⟩ ⟨⟨1⟩, "alice"⟩ 12 "5d838d477ddf355fc15df1db90bee0aa" ⟨0⟩
        [.fileName "first", .format " json\t", .fileName "  fn "] = .ok n ∧
      n.GetFileName = "fn" ∧ n.GetFormat = "json" := by
  obtain ⟨n, h1, h2, h3, _⟩ := NewNode_filename_format ⟨7⟩ ⟨⟨1⟩, "alice"⟩ 12
    "5d838d477ddf355fc15df1db90bee0aa" ⟨0⟩
    [.fileName "first", .format " json\t", .fileName "  fn "] (by decide)
  exact ⟨n, h1, by rw [h2]; decide, by rw [h3]; decide⟩

end nodestore

/-! ### Requests that are turned down before any call -/

namespace service

/-- C12: for an authenticated DELETE with a node id that parses and ACL type
`owner`, `setNodeACL` answers status 400 with "Deleting ownership is not a
supported request type." and makes no call at all, on the blob store or on the
auth cache, whatever the `users` parameter is. -/
theorem setNodeACL_delete_owner (env : Env) (s : Server) (r : Request)
    (user : auth.User) (id : UUID)
    (hu : getUser r = some user)
    (hid : env.uuidParse ((r.vars.lookup "id").getD "") = .ok id)
    (hacl : (r.vars.lookup "acltype").getD "" = "owner") :
    (setNodeACL env s r false).calls = [] ∧
    (setNodeACL env s r false).resp =
      some (writeErrorWithCode "Deleting ownership is not a supported request type." 400) ∧
    (writeErrorWithCode "Deleting ownership is not a supported request type." 400).isError 400
      "Deleting ownership is not a supported request type." ∧
    removeNodeACL env s r = setNodeACL env s r false := by
  have hacl2 : (r.vars.lookup "acltype").getD "" ∈ aclTypes := by
    rw [hacl]; decide
  have hset : setNodeACL env s r false =
      ⟨[], some (writeErrorWithCode "Deleting ownership is not a supported request type." 400)⟩ := by
    simp [setNodeACL, getACLParams_ok env r id hid hacl2, getUserRequired_some r user hu, hacl]
  refine ⟨?_, ?_, ⟨rfl, rfl⟩, rfl⟩
  · rw [hset]
  · rw [hset]

/-- C12 at the sample request with ACL type `owner` and `users=bob`. -/
theorem setNodeACL_delete_owner_witness :
    (setNodeACL sampleEnv sampleServer (sampleRequest "owner" "bob") false).calls = [] ∧
    ((setNodeACL sampleEnv sampleServer (sampleRequest "owner" "bob") false).resp.map
      (fun resp => resp.code)) = some 400 :=
  have h := setNodeACL_delete_owner sampleEnv sampleServer (sampleRequest "owner" "bob")
    ⟨"alice"⟩ ⟨1⟩ rfl rfl rfl
  ⟨h.1, by rw [h.2.1]; rfl⟩

/-- C16: when the `id` path variable does not parse as a UUID, `getNodeID`
answers status 404 with "Node not found" and returns an error, and `getNode`,
`copyNode` and `deleteNode` write that response and make no call. -/
theorem getNodeID_not_found (env : Env) (s : Server) (r : Request) (err : GoError)
    (hid : env.uuidParse ((r.vars.lookup "id").getD "") = .error err) :
    getNodeID env r = .error (writeErrorWithCode "Node not found" 404) ∧
    (writeErrorWithCode "Node not found" 404).isError 404 "Node not found" ∧
    getNode env s r = ⟨[], some (writeErrorWithCode "Node not found" 404)⟩ ∧
    copyNode env s r = ⟨[], some (writeErrorWithCode "Node not found" 404)⟩ ∧
    deleteNode env s r = ⟨[], some (writeErrorWithCode "Node not found" 404)⟩ := by
  have h : getNodeID env r = .error (writeErrorWithCode "Node not found" 404) := by
    simp [getNodeID, hid]
  refine ⟨h, ⟨rfl, rfl⟩, ?_, ?_, ?_⟩
  · simp [getNode, h]
  · simp [copyNode, h]
  · simp [deleteNode, h]

/-- C16 at the sample request with the node id `not-a-uuid`. -/
theorem getNodeID_not_found_witness :
    (getNode sampleEnv sampleServer badIDRequest).calls = [] ∧
    ((getNode sampleEnv sampleServer badIDRequest).resp.map (fun resp => resp.code)) = some 404 :=
  have h := getNodeID_not_found sampleEnv sampleServer badIDRequest
    (errors.New "invalid UUID") rfl
  ⟨by rw [h.2.2.1], by rw [h.2.2.1]; rfl⟩

end service

/-! ### Uploads through a multipart form -/

namespace service

/-- A value `ParseInt` returns lies in the range of `int64`. -/
theorem ParseInt_range (s : String) (N : Int) (h : ParseInt s = .ok N) :
    -(2 : Int) ^ 63 ≤ N ∧ N < (2 : Int) ^ 63 := by
  unfold ParseInt at h
  generalize (match s.data with
    | '+' :: ds => (false, ds)
    | '-' :: ds => (true, ds)
    | ds => (false, ds)) = p at h
  obtain ⟨neg, digits⟩ := p
  simp only at h
  by_cases h1 : digits = []
  · simp [h1] at h
  · simp only [h1, if_false] at h
    cases hd : digitsValue digits 0 with
    | none => simp [hd] at h
    | some un =>
      simp only [hd] at h
      cases neg with
      | false =>
        simp only [Bool.false_eq_true, not_false_eq_true, true_and, false_and, if_false] at h
        by_cases h2 : un ≥ 2 ^ 63
        · rw [if_pos h2] at h
          cases h
        · rw [if_neg h2] at h
          simp only [Except.ok.injEq] at h
          subst h
          constructor <;> omega
      | true =>
        simp only [not_true_eq_false, true_and, false_and, if_false, if_true] at h
        by_cases h2 : un > 2 ^ 63
        · rw [if_pos h2] at h
          cases h
        · rw [if_neg h2] at h
          simp only [Except.ok.injEq] at h
          subst h
          constructor <;> omega

/-- The upload part of a form, as `createNodeFromFormData` handles it. -/
theorem createNodeFromFormData_upload (env : Env) (s : Server) (user : auth.User)
    (part : Part) (format : values.FileFormat) (hname : part.formName = formUpload) :
    uploadHandled env user part format
      (createNodeFromFormData env s user part (some format)) := by
  have h1 : formUpload ≠ formCopyData := by decide
  unfold uploadHandled createNodeFromFormData
  simp only [hname, h1, if_false, if_true]
  cases hcl : ParseInt (part.header.Get "Content-Length") with
  | error e => simp
  | ok N =>
    by_cases hN : N < 0
    · have hN2 : ¬ 0 ≤ N := by omega
      simp [hN, hN2]
      constructor <;> intro N1 x e h0 <;> omega
    · have hN2 : 0 ≤ N := by omega
      cases hfn : env.NewFileName part.fileName with
      | error e => simp [hN, hN2]
      | ok filename =>
        cases hst : s.store.Store user part.content N filename format with
        | error e => simp [hN, hN2, hst, Call.isStore]
        | ok node => simp [hN, hN2, hst, Call.isStore]

/-- Without a format, the upload part leads to no call. -/
theorem createNodeFromFormData_no_format (env : Env) (s : Server) (user : auth.User)
    (part : Part) (hname : part.formName = formUpload) :
    (createNodeFromFormData env s user part none).calls = [] := by
  have h1 : formUpload ≠ formCopyData := by decide
  unfold createNodeFromFormData
  simp only [hname, h1, if_false, if_true]
  cases ParseInt (part.header.Get "Content-Length") with
  | error e => rfl
  | ok N =>
    by_cases hN : N < 0
    · simp [hN]
    · simp only [hN, if_false]
      cases env.NewFileName part.fileName <;> rfl

/-- C13, as stated, fails: the upload part carries `Content-Length: 12`, which
parses as 12, and `Store` is not called, because the `format` part before it
holds 101 bytes, all of which the one `Read` yields, and `values.NewFileFormat`
turns it down. -/
theorem createNodeFromForm_upload_not_stored :
    (uploadPart "12" "fn").formName = formUpload ∧
    ParseInt ((uploadPart "12" "fn").header.Get "Content-Length") = .ok 12 ∧
    getStringFromPart longFormatPart 101 = .ok longFormatPart.content ∧
    strings.byteLen longFormatPart.content = 101 ∧
    (createNodeFromForm strictEnv sampleServer (sampleRequest "" "")
      (sampleForm [longFormatPart, uploadPart "12" "fn"])
      ⟨"alice"⟩).calls = [] :=
  ⟨rfl, rfl, rfl, by decide, by decide⟩

/-- C13, amended: for an upload part, `createNodeFromForm` calls `Store`
exactly when the `Content-Length` of the part parses as a 64-bit integer
`N ≥ 0`, `values.NewFileName` accepts the file name of the part and
`values.NewFileFormat` accepts the format in force, and then once, with size
`N`; without such a `Content-Length` it answers status 400 and with a file
name that is turned down it answers with that error, without any call. The
format in force is the empty format when the upload part comes first: if
`values.NewFileFormat` accepts it the above holds, and if not, no call is
made. It is what one `Read` of 101 bytes yields of the `format` part when one
comes first: if the part is read and `values.NewFileFormat` accepts it the
above holds; if it cannot be read or is turned down, the answer is that
error, without any call. -/
theorem createNodeFromForm_upload (env : Env) (s : Server) (r : Request) (form : Form)
    (user : auth.User) (part : Part) (hname : part.formName = formUpload) :
    (∀ rest format, form.parts = part :: rest → env.NewFileFormat "" = .ok format →
      uploadHandled env user part format (createNodeFromForm env s r form user)) ∧
    (∀ rest err, form.parts = part :: rest → env.NewFileFormat "" = .error err →
      (createNodeFromForm env s r form user).calls = []) ∧
    (∀ fpart rest, form.parts = fpart :: part :: rest → fpart.formName = formFormat →
      (∀ resp, getStringFromPart fpart 101 = .error resp →
        createNodeFromForm env s r form user = ⟨[], some resp⟩) ∧
      (∀ formatstr, getStringFromPart fpart 101 = .ok formatstr →
        (∀ err, env.NewFileFormat formatstr = .error err →
          createNodeFromForm env s r form user = ⟨[], some (writeError env err)⟩) ∧
        (∀ format, env.NewFileFormat formatstr = .ok format →
          uploadHandled env user part format (createNodeFromForm env s r form user)))) ∧
    (∀ N, ParseInt (part.header.Get "Content-Length") = .ok N →
      -(2 : Int) ^ 63 ≤ N ∧ N < (2 : Int) ^ 63) := by
  have hne : formUpload ≠ formFormat := by decide
  refine ⟨?_, ?_, ?_, fun N h => ParseInt_range _ N h⟩
  · intro rest format hparts hfmt
    have h : createNodeFromForm env s r form user =
        createNodeFromFormData env s user part (some format) := by
      simp [createNodeFromForm, getNextFormPart, hparts, hname, hne, hfmt, Except.toOption]
    rw [h]
    exact createNodeFromFormData_upload env s user part format hname
  · intro rest err hparts hfmt
    have h : createNodeFromForm env s r form user =
        createNodeFromFormData env s user part none := by
      simp [createNodeFromForm, getNextFormPart, hparts, hname, hne, hfmt, Except.toOption]
    rw [h]
    exact createNodeFromFormData_no_format env s user part hname
  · intro fpart rest hparts hfname
    refine ⟨?_, ?_⟩
    · intro resp hresp
      simp [createNodeFromForm, getNextFormPart, hparts, hfname, hresp]
    · intro formatstr hstr
      refine ⟨?_, ?_⟩
      · intro err herr
        simp [createNodeFromForm, getNextFormPart, hparts, hfname, hstr, herr]
      · intro format hfmt
        have h : createNodeFromForm env s r form user =
            createNodeFromFormData env s user part (some format) := by
          simp [createNodeFromForm, getNextFormPart, hparts, hfname, hstr, hfmt]
        rw [h]
        exact createNodeFromFormData_upload env s user part format hname

/-- C13, amended, at forms with the upload part `Content-Length: 12`, file
name `fn`: `Store` is called once, with size 12, with the empty format when
the upload part comes first and with the format `json` when the format part
`json` comes first. -/
theorem createNodeFromForm_upload_witness :
    (createNodeFromForm sampleEnv sampleServer (sampleRequest "" "")
      (sampleForm [uploadPart "12" "fn"]) ⟨"alice"⟩).calls =
      [.Store ⟨"alice"⟩ "012345678910" 12 ⟨"fn"⟩ ⟨""⟩] ∧
    (createNodeFromForm strictEnv sampleServer (sampleRequest "" "")
      (sampleForm [jsonFormatPart, uploadPart "12" "fn"]) ⟨"alice"⟩).calls =
      [.Store ⟨"alice"⟩ "012345678910" 12 ⟨"fn"⟩ ⟨"json"⟩] :=
  ⟨((createNodeFromForm_upload sampleEnv sampleServer (sampleRequest "" "")
      (sampleForm [uploadPart "12" "fn"]) ⟨"alice"⟩ (uploadPart "12" "fn") rfl).1
        [] ⟨""⟩ rfl rfl).2.1 12 ⟨"fn"⟩ rfl (by decide) rfl,
    ((((createNodeFromForm_upload strictEnv sampleServer (sampleRequest "" "")
      (sampleForm [jsonFormatPart, uploadPart "12" "fn"]) ⟨"alice"⟩ (uploadPart "12" "fn")
        rfl).2.2.1 jsonFormatPart [] rfl rfl).2 "json" rfl).2 ⟨"json"⟩ rfl).2.1
          12 ⟨"fn"⟩ rfl (by decide) rfl⟩

end service

/-! ### The file store -/

namespace md5

theorem length_leBytes (n x : Nat) : (leBytes n x).length = n := by
  induction n generalizing x with
  | zero => rfl
  | succ k ih => simp [leBytes, ih]

theorem length_Sum (msg : List Nat) : (Sum msg).length = 16 := by
  simp [Sum, length_leBytes]

theorem length_hexString (l : List Nat) : (hexString l).length = 2 * l.length := by
  induction l with
  | nil => rfl
  | cons b bs ih => simp [hexString, hexByte, ih]; omega

theorem hexDigit_mem (d : Nat) (h : d < 16) : hexDigit d ∈ "0123456789abcdef".data := by
  revert d
  decide

theorem hexString_mem (l : List Nat) : ∀ c ∈ hexString l, c ∈ "0123456789abcdef".data := by
  induction l with
  | nil => simp [hexString]
  | cons b bs ih =>
    intro c hc
    simp only [hexString, hexByte, List.cons_append, List.nil_append, List.mem_cons] at hc
    rcases hc with h | h | h
    · rw [h]; exact hexDigit_mem _ (Nat.mod_lt _ (by decide))
    · rw [h]; exact hexDigit_mem _ (Nat.mod_lt _ (by decide))
    · exact ih c h

/-- The hexadecimal digest has 32 characters, all lower-case hexadecimal
digits. -/
theorem SumHex_shape (msg : List Nat) :
    (SumHex msg).length = 32 ∧ filestore.isLowerHex (SumHex msg) := by
  constructor
  · show (hexString (Sum msg)).length = 32
    rw [length_hexString, length_Sum]
  · exact hexString_mem (Sum msg)

end md5

namespace filestore

set_option maxRecDepth 100000 in
/-- The digest of the twelve bytes `012345678910`. -/
theorem SumHex_sample :
    md5.SumHex (asciiBytes "012345678910") = "5d838d477ddf355fc15df1db90bee0aa" := by
  decide

/-- C14: for every id, declared size `n ≥ 1`, stream of exactly `n` bytes,
file name and format, `StoreFile` succeeds and returns an output whose `ID`,
`Size`, `Filename` and `Format` are the inputs and whose `MD5` is the MD5
digest of the streamed bytes in hexadecimal, 32 lower-case hexadecimal
characters; for the 12 bytes `012345678910` with file name `fn` and format
`json` the output has `Size` 12 and `MD5`
`5d838d477ddf355fc15df1db90bee0aa`. -/
theorem StoreFile_output (now : Time) (id filename format : String) (data : List Nat)
    (size : Int) :
    (1 ≤ size → (data.length : Int) = size →
      ∃ out, StoreFile now ⟨id, size, data, filename, format⟩ = .ok out ∧
        out.ID = id ∧ out.Size = size ∧ out.Filename = filename ∧ out.Format = format ∧
        out.Stored = now ∧ out.MD5 = md5.SumHex data ∧
        out.MD5.length = 32 ∧ isLowerHex out.MD5) ∧
    StoreFile now ⟨"myid", 12, asciiBytes "012345678910", "fn", "json"⟩ =
      .ok { ID := "myid", Size := 12, Stored := now, Filename := "fn", Format := "json",
            MD5 := "5d838d477ddf355fc15df1db90bee0aa" } := by
  refine ⟨?_, ?_⟩
  · intro _ hlen
    have hok : StoreFile now ⟨id, size, data, filename, format⟩ =
        .ok { ID := id, Size := size, Stored := now, Filename := filename, Format := format,
              MD5 := md5.SumHex data } := by
      simp only [StoreFile, hlen, ne_eq, not_true_eq_false, if_false]
    exact ⟨_, hok, rfl, rfl, rfl, rfl, rfl, rfl, (md5.SumHex_shape data).1,
      (md5.SumHex_shape data).2⟩
  · have hlen : ((asciiBytes "012345678910").length : Int) = 12 := by decide
    simp only [StoreFile, hlen, ne_eq, not_true_eq_false, if_false, SumHex_sample]

/-- C14 at the input of `TestGetAndPut`. -/
theorem StoreFile_output_witness :
    ∃ out, StoreFile ⟨0⟩ ⟨"myid", 12, asciiBytes "012345678910", "fn", "json"⟩ = .ok out ∧
      out.ID = "myid" ∧ out.Size = 12 ∧ out.Filename = "fn" ∧ out.Format = "json" :=
  have ⟨out, h, h1, h2, h3, h4, _⟩ :=
    (StoreFile_output ⟨0⟩ "myid" "fn" "json" (asciiBytes "012345678910") 12).1
      (by decide) (by decide)
  ⟨out, h, h1, h2, h3, h4⟩

end filestore
